import Mathlib

/-!
# wptide/pkg: audit gating, the PHPCompatibility post-processor, the message
# mock and the combined checksum

A shallow embedding of the Go sources

* `audit/audit.go` (`Result`, `CanRunAudit`),
* `audit/phpcs/phpcompat.go` (`PhpCompat.Process`, `uploadResults`, `reportPath`),
* `message/firestore/mocks_test.go` (`mockClient.QueryItems`),
* `source/zip` (`combinedChecksum`, known through its test only), with SHA-256
  and the JSON text of a list of strings for the digest its test expects,

followed by the theorems about them.

Conventions. A Go `map[string]T` is an association list read with `mapGet`
and written with `mapSet`. A Go pointer to a `tide.AuditResult` is an address
into a `Heap`. A Go function that can panic returns `Option`, `none` being the
panic. External calls (`writeFile`, `UploadFile`) are logged in the `World`.
-/

/-! ## Go maps -/

/-- Read of a Go map, `m[k]` with the comma-ok flag: `none` when the key is
absent. -/
def mapGet {α : Type} : List (String × α) → String → Option α
  | [], _ => none
  | (k', v) :: t, k => if k' = k then some v else mapGet t k

/-- Write of a Go map, `m[k] = v`: replaces the value of an existing key, adds
the key otherwise. -/
def mapSet {α : Type} : List (String × α) → String → α → List (String × α)
  | [], k, v => [(k, v)]
  | (k', v') :: t, k, v => if k' = k then (k, v) :: t else (k', v') :: mapSet t k v

/-! ## package storage -/

namespace storage

/-- The capability `storage.StorageProvider` as far as `uploadResults` uses it:
`Kind()`, `CollectionRef()` and the outcome of `UploadFile(path, key)`
(`none` is a nil error, `some e` an error with text `e`). -/
structure StorageProvider where
  Kind : String
  CollectionRef : String
  UploadFile : String → String → Option String

end storage

/-! ## package audit -/

namespace audit

/-- The dynamic values (`interface{}`) a result bag can hold. References are
non-nil: `auditResult a` is a `*tide.AuditResult` pointing at address `a` of
the heap, `fileStore sp` is a `*storage.StorageProvider`; `nil` is the untyped
nil interface value and `other` stands for every dynamic type the code never
asserts. -/
inductive Value where
  | nil
  | str (s : String)
  | strs (l : List String)
  | auditResult (a : Nat)
  | fileStore (sp : storage.StorageProvider)
  | error (msg : String)
  | other (tag : Nat)

/-- The Go type `Result`, `map[string]interface{}`. -/
abbrev Result := List (String × Value)

/-- The loop of `CanRunAudit`: `for _, v := range l { if v == kind { return true } }`
followed by `return false`. -/
def rangeAudits : List String → String → Bool
  | [], _ => false
  | v :: vs, kind => if v = kind then true else rangeAudits vs kind

/-- The function `CanRunAudit(p, results)`, the processor given by its `Kind()`.
`r["audits"] != nil` fails for an absent key and for a stored nil; the
unchecked assertion `r["audits"].([]string)` panics (`none`) on any other
dynamic type. -/
def CanRunAudit (pKind : String) (results : Result) : Option Bool :=
  match mapGet results "audits" with
  | none => some false
  | some Value.nil => some false
  | some (Value.strs l) => some (rangeAudits l pKind)
  | some _ => none

end audit

/-! ## package tide (types used by the post-processor) -/

namespace tide

/-- Modelled from the spec: the type `tide.PhpcsFilesMessage` is declared
outside the sources; the code reads its `Source` (the rule/source identifier),
the rest of the violation detail is kept as one text. -/
structure PhpcsFilesMessage where
  Source : String
  Message : String
  deriving DecidableEq, Repr

/-- Modelled from the spec: one value of the `Files` map of
`tide.PhpcsResults`; the code reads its `Messages`. -/
structure PhpcsFile where
  Messages : List PhpcsFilesMessage
  deriving DecidableEq, Repr

/-- Modelled from the spec: the type `tide.PhpcsResults` is declared outside
the sources; the code reads `Files`, a map from filename to the messages of
that file. The list is in the order in which `range` visits the map. -/
structure PhpcsResults where
  Files : List (String × PhpcsFile)
  deriving DecidableEq, Repr

/-- The anonymous struct type of `AuditResult.Details`, spelled out in
`uploadResults`: three strings and two embedded pointers (an address, or
`none` for nil). Go compares two such structs field by field. -/
structure Details where
  Type_ : String
  Key : String
  BucketName : String
  PhpcsResults : Option Nat
  LighthouseResults : Option Nat
  deriving DecidableEq, Repr

/-- Modelled from the spec: the type `tide.AuditResult` is declared outside the
sources; these are the fields `Process` reads or writes. -/
structure AuditResult where
  Details : Details
  CompatibleVersions : List String
  Error : String
  deriving DecidableEq, Repr

/-- The zero value `tide.AuditResult{}`. -/
def emptyResult : AuditResult :=
  { Details := { Type_ := "", Key := "", BucketName := "", PhpcsResults := none,
                 LighthouseResults := none },
    CompatibleVersions := [], Error := "" }

end tide

/-- The objects `*tide.AuditResult` values point to, by address. -/
abbrev Heap := Nat → tide.AuditResult

/-- Store through a pointer: the object at address `a` becomes `v`. -/
def heapSet (h : Heap) (a : Nat) (v : tide.AuditResult) : Heap :=
  fun b => if b = a then v else h b

/-! ## package phpcs -/

namespace phpcs

/-- The dynamic values of one entry of the detail structure,
`map[string]interface{}`: under `"files"` a map from filename to message,
under `"breaks"` the list `BreaksVersions` returned. -/
inductive EntryValue where
  | files (m : List (String × tide.PhpcsFilesMessage))
  | breaks (vs : List String)
  deriving DecidableEq, Repr

/-- The detail structure `sources`, `map[string]map[string]interface{}`. -/
abbrev Sources := List (String × List (String × EntryValue))

/-- What `Process` calls outside this file. `unmarshal` is `json.Unmarshal`
into a `tide.PhpcsResults` on a non-empty input (`none` is an error),
`marshal` is `json.Marshal` of the detail structure, `writeFile` is the
package variable of that name (`none` is a nil error), the other four are the
functions of package `phpcompat`. -/
structure Externals where
  unmarshal : String → Option tide.PhpcsResults
  marshal : Sources → String
  writeFile : String → String → Option String
  BreaksVersions : tide.PhpcsFilesMessage → List String
  MergeVersions : List String → List String → List String
  ExcludeVersions : List String → List String → List String
  PhpMajorVersions : List String

/-- The call `json.Unmarshal(byteSummary, &fullResults)`: `encoding/json`
rejects an empty input ("unexpected end of JSON input") before it decodes
anything; a non-empty input is left to `Externals.unmarshal`. -/
def jsonUnmarshal (x : Externals) (byteSummary : String) : Option tide.PhpcsResults :=
  if byteSummary = "" then none else x.unmarshal byteSummary

/-- The struct `PhpCompat`. `Report` is the content `ioutil.ReadAll` yields
from the reader (`none` for a nil reader), `ParentProcess` is the parent's
`Kind()`, the only thing `Process` asks of it. -/
structure PhpCompat where
  Report : Option String
  ParentProcess : String
  resultPath : String
  resultFile : String
  deriving DecidableEq, Repr

/-- The method `Kind`. -/
def Kind : String := "phpcs_phpcompatibility"

/-- The call `strings.TrimRight(s, "/")`: `s` without its trailing slashes. -/
def TrimRight (s : String) : String :=
  String.mk (s.data.reverse.dropWhile (fun c => c = '/')).reverse

/-- The method `reportPath`: `(filename, path, err)`; on an error the two names
are the empty string (named results left at their zero value). -/
def reportPath (r : audit.Result) (fileSuffix : String) : String × String × Option String :=
  match mapGet r "tempFolder" with
  | some (audit.Value.str tempFolder) =>
    match mapGet r "checksum" with
    | some (audit.Value.str checksum) =>
      let filename := checksum ++ "-" ++ Kind
      let filename :=
        if fileSuffix ≠ "" then filename ++ ("-" ++ fileSuffix ++ ".json")
        else filename ++ ".json"
      (filename, TrimRight tempFolder ++ "/" ++ filename, none)
    | _ => ("", "", some "there was no checksum to be used for filenames")
  | _ => ("", "", some "no tempFolder to write results to before upload to fileStore")

/-- The method `uploadResults`: the `tide.AuditResult` it returns or its error,
and the calls of `UploadFile` it made, as `(path, key)`. -/
def uploadResults (p : PhpCompat) (r : audit.Result) :
    Except String tide.AuditResult × List (String × String) :=
  if p.resultFile = "" ∨ p.resultPath = "" then
    (Except.error "no result path given", [])
  else
    match mapGet r "fileStore" with
    | some (audit.Value.fileStore sP) =>
      match sP.UploadFile p.resultPath p.resultFile with
      | some e => (Except.error e, [(p.resultPath, p.resultFile)])
      | none =>
        (Except.ok { tide.emptyResult with
            Details := { Type_ := sP.Kind, Key := p.resultFile,
                         BucketName := sP.CollectionRef, PhpcsResults := none,
                         LighthouseResults := none } },
         [(p.resultPath, p.resultFile)])
    | _ => (Except.error "could not get fileStore to upload to", [])

/-- The body of the inner loop of `Process` for one message of one file: a
source seen for the first time gets a fresh entry with an empty `"files"` map
and its `"breaks"`, and its versions are merged into `brokenVersions`; then the
message is stored under the filename in the entry's `"files"` map. -/
def addMessage (x : Externals) (filename : String) (acc : Sources × List String)
    (sniffMessage : tide.PhpcsFilesMessage) : Sources × List String :=
  let acc1 : Sources × List String :=
    match mapGet acc.1 sniffMessage.Source with
    | some _ => acc
    | none =>
      let broken := x.BreaksVersions sniffMessage
      (mapSet acc.1 sniffMessage.Source
          [("files", EntryValue.files []), ("breaks", EntryValue.breaks broken)],
        x.MergeVersions acc.2 broken)
  match mapGet acc1.1 sniffMessage.Source with
  | some entry =>
    match mapGet entry "files" with
    | some (EntryValue.files fm) =>
      (mapSet acc1.1 sniffMessage.Source
          (mapSet entry "files" (EntryValue.files (mapSet fm filename sniffMessage))),
        acc1.2)
    | _ => acc1
  | none => acc1

/-- The two nested loops of `Process` over `fullResults.Files`, from the empty
`sources` and the empty `brokenVersions`. -/
def buildSources (x : Externals) (fullResults : tide.PhpcsResults) : Sources × List String :=
  fullResults.Files.foldl
    (fun acc fd => fd.2.Messages.foldl (addMessage x fd.1) acc) ([], [])

/-- What `Process` works on: the receiver `p`, the result bag `r`, the heap the
bag's `*tide.AuditResult` values point into, and the log of the external calls
made so far, oldest first: `writes` holds `(path, data)` of each `writeFile`,
`uploads` holds `(path, key)` of each `UploadFile`. -/
structure World where
  p : PhpCompat
  r : audit.Result
  heap : Heap
  writes : List (String × String)
  uploads : List (String × String)

/-- The three failure exits of `Process` that have the parent's result in
hand: `r[p.Kind()+"Error"] = errors.New(errMsg)` and
`auditResults.Error += "\n" + errMsg`, through the pointer `a`. -/
def recordError (w : World) (a : Nat) (errMsg : String) : World :=
  { w with
    r := mapSet w.r (Kind ++ "Error") (audit.Value.error errMsg),
    heap := heapSet w.heap a { w.heap a with Error := (w.heap a).Error ++ ("\n" ++ errMsg) } }

/-- The method `Process` (its `msg` argument is not used). -/
def Process (x : Externals) (w : World) : World :=
  let byteSummary : String :=
    match w.p.Report with
    | some content => content
    | none => ""
  match mapGet w.r w.p.ParentProcess with
  | some (audit.Value.auditResult a) =>
    match jsonUnmarshal x byteSummary with
    | none => recordError w a "could not get phpcs results"
    | some fullResults =>
      let built := buildSources x fullResults
      let res := x.marshal built.1
      let rp := reportPath w.r "detail"
      let w1 : World :=
        { w with
          p := { w.p with resultFile := rp.1, resultPath := rp.2.1 },
          writes := w.writes ++ [(rp.2.1, res)] }
      match x.writeFile rp.2.1 res with
      | some _ => recordError w1 a "could not write PHPCompatibility details to disk"
      | none =>
        let up := uploadResults w1.p w1.r
        let w2 : World := { w1 with uploads := w1.uploads ++ up.2 }
        match up.1 with
        | Except.error _ =>
          recordError w2 a "could not write PHPCompatibility details to file store"
        | Except.ok details =>
          let cur := w2.heap a
          let cur1 : tide.AuditResult :=
            if cur.Details = tide.emptyResult.Details then
              { cur with Details := details.Details }
            else cur
          { w2 with
            heap := heapSet w2.heap a
              { cur1 with
                CompatibleVersions := x.ExcludeVersions x.PhpMajorVersions built.2 } }
  | _ =>
    { w with
      r := mapSet w.r (Kind ++ "Error")
        (audit.Value.error "could not get results from parent process") }

/-- A sequence of calls of `Process` over one heap. Each call comes with the
externals in force, the receiver it is made on, and the edit the driver made
to the bag since the previous call; the heap and the logs are carried from
call to call. -/
def ProcessAll : List (Externals × PhpCompat × (audit.Result → audit.Result)) → World → World
  | [], w => w
  | (x, p, edit) :: calls, w =>
    ProcessAll calls (Process x { w with p := p, r := edit w.r })

/-- The `(filename, message)` pairs in the order in which the two nested loops
of `Process` visit them. -/
def visits : List (String × tide.PhpcsFile) → List (String × tide.PhpcsFilesMessage)
  | [] => []
  | fd :: rest => fd.2.Messages.map (fun m => (fd.1, m)) ++ visits rest

/-- The loop invariant of the detail structure after the pairs `done` have been
visited: the keys are distinct and are the sources of the visited messages;
every entry has a `"files"` map and a `"breaks"` list, the list being what
`BreaksVersions` gave for a visited message of that source; the `"files"` map
holds, under a filename, a visited message of that file and source, and has a
key for every visited file with a message of that source. -/
def DetailInvariant (x : Externals) (done : List (String × tide.PhpcsFilesMessage))
    (sources : Sources) : Prop :=
  (sources.map Prod.fst).Nodup ∧
  (∀ s, s ∈ sources.map Prod.fst ↔ ∃ fm ∈ done, fm.2.Source = s) ∧
  (∀ s entry, mapGet sources s = some entry →
    ∃ files breaks,
      mapGet entry "files" = some (EntryValue.files files) ∧
      mapGet entry "breaks" = some (EntryValue.breaks breaks) ∧
      (∃ fm ∈ done, fm.2.Source = s ∧ breaks = x.BreaksVersions fm.2) ∧
      (∀ f m, mapGet files f = some m → (f, m) ∈ done ∧ m.Source = s) ∧
      (∀ f m, (f, m) ∈ done → m.Source = s → ∃ m', mapGet files f = some m'))

end phpcs

/-! ## package firestore (the mock client of the tests) -/

namespace firestore

/-- Modelled from the spec: the type `message.Message` is declared outside the
sources; the mock sets its `Title`. -/
structure Message where
  Title : String
  deriving DecidableEq, Repr

/-- The dynamic values of a document's fields: the `int64` and the
`message.Message` the mock stores, the `string` it stores under `_id`, and
`other` for every other dynamic type an update function may return. -/
inductive FieldValue where
  | int64 (n : Int)
  | message (m : Message)
  | string (s : String)
  | other (tag : Nat)
  deriving DecidableEq, Repr

/-- The fields of a document, `map[string]interface{}`. -/
abbrev Doc := List (String × FieldValue)

/-- What one call `updateFunc(docData)` does. The mock hands the function the
map `docData` itself, and a Go function may edit the map it is given, so the
outcome of a call has three parts: `edited`, the map `docData` as the
function left it (equal to the argument when the function only reads it);
`data`, the map the function returned (nil is the empty map); and `err`, its
error (`none` is nil). -/
structure UpdateResult where
  edited : Doc
  data : Doc
  err : Option String
  deriving DecidableEq, Repr

/-- The type `firestore.UpdateFunc`,
`func(map[string]interface{}) (map[string]interface{}, error)`. -/
abbrev UpdateFunc := Doc → UpdateResult

/-- The map literal `docData` of `simpleMessage`. -/
def docData (retries : Int) : Doc :=
  [("retries", FieldValue.int64 retries),
   ("message", FieldValue.message { Title := "Simple Message" })]

/-- The loop `for key, val := range data { docData[key] = val }`. -/
def mergeInto (docData : Doc) : Doc → Doc
  | [] => docData
  | (key, val) :: rest => mergeInto (mapSet docData key val) rest

/-- The closure `simpleMessage` of `QueryItems`: `updateFunc` is called on the
map `docData` itself, its error is discarded (`data, _ := updateFunc(docData)`),
the returned fields are merged into `docData` as the call left it, and `_id`
is set when `id` is not empty. -/
def simpleMessage (updateFunc : UpdateFunc) (retries : Int) (id : String) : List Doc :=
  let result := updateFunc (docData retries)
  let merged := mergeInto result.edited result.data
  let withId := if id ≠ "" then mapSet merged "_id" (FieldValue.string id) else merged
  [withId]

/-- The method `mockClient.QueryItems`; `conditions`, `ordering` and `limit`
are not read by the mock and are left out. The result is the slice (nil is
the empty list) and the error. -/
def QueryItems (collection : String) (updateFunc : UpdateFunc) : List Doc × Option String :=
  if collection = "simple-message" then (simpleMessage updateFunc 5 "", none)
  else if collection = "last-retry" then (simpleMessage updateFunc 1 "", none)
  else if collection = "with-id" then (simpleMessage updateFunc 1 "ABC123", none)
  else ([], none)

end firestore

/-! ## SHA-256 and JSON text (Go's `crypto/sha256`, `encoding/hex`, `encoding/json`) -/

namespace sha256

/-- Reduction of a number to a 32-bit word. -/
def mask32 (n : Nat) : Nat := n % 4294967296

/-- Rotation of a 32-bit word to the right by `n` bits. -/
def rotr (x n : Nat) : Nat := mask32 ((x >>> n) ||| (x <<< (32 - n)))

/-- The function Ch of FIPS 180-4. -/
def ch (x y z : Nat) : Nat := (x &&& y) ^^^ ((4294967295 - x) &&& z)

/-- The function Maj of FIPS 180-4. -/
def maj (x y z : Nat) : Nat := (x &&& y) ^^^ (x &&& z) ^^^ (y &&& z)

/-- The function Sigma0 of FIPS 180-4. -/
def bsig0 (x : Nat) : Nat := rotr x 2 ^^^ rotr x 13 ^^^ rotr x 22

/-- The function Sigma1 of FIPS 180-4. -/
def bsig1 (x : Nat) : Nat := rotr x 6 ^^^ rotr x 11 ^^^ rotr x 25

/-- The function sigma0 of FIPS 180-4. -/
def ssig0 (x : Nat) : Nat := rotr x 7 ^^^ rotr x 18 ^^^ (x >>> 3)

/-- The function sigma1 of FIPS 180-4. -/
def ssig1 (x : Nat) : Nat := rotr x 17 ^^^ rotr x 19 ^^^ (x >>> 10)

/-- The sixty-four round constants, in decimal. -/
def K : List Nat :=
  [1116352408, 1899447441, 3049323471, 3921009573, 961987163, 1508970993,
   2453635748, 2870763221, 3624381080, 310598401, 607225278, 1426881987,
   1925078388, 2162078206, 2614888103, 3248222580, 3835390401, 4022224774,
   264347078, 604807628, 770255983, 1249150122, 1555081692, 1996064986,
   2554220882, 2821834349, 2952996808, 3210313671, 3336571891, 3584528711,
   113926993, 338241895, 666307205, 773529912, 1294757372, 1396182291,
   1695183700, 1986661051, 2177026350, 2456956037, 2730485921, 2820302411,
   3259730800, 3345764771, 3516065817, 3600352804, 4094571909, 275423344,
   430227734, 506948616, 659060556, 883997877, 958139571, 1322822218,
   1537002063, 1747873779, 1955562222, 2024104815, 2227730452, 2361852424,
   2428436474, 2756734187, 3204031479, 3329325298]

/-- The initial hash value, in decimal. -/
def H0 : List Nat :=
  [1779033703, 3144134277, 1013904242, 2773480762,
   1359893119, 2600822924, 528734635, 1541459225]

/-- The UTF-8 bytes of a character. -/
def utf8 (c : Char) : List Nat :=
  if c.toNat < 128 then [c.toNat]
  else if c.toNat < 2048 then [192 + c.toNat / 64, 128 + c.toNat % 64]
  else if c.toNat < 65536 then
    [224 + c.toNat / 4096, 128 + (c.toNat / 64) % 64, 128 + c.toNat % 64]
  else
    [240 + c.toNat / 262144, 128 + (c.toNat / 4096) % 64, 128 + (c.toNat / 64) % 64,
     128 + c.toNat % 64]

/-- The bytes of a text, `[]byte(s)`. -/
def bytes (s : String) : List Nat := s.data.flatMap utf8

/-- The `k` low bytes of `n`, most significant first. -/
def beBytes : Nat → Nat → List Nat
  | 0, _ => []
  | k + 1, n => (n / 256 ^ k) % 256 :: beBytes k n

/-- Padding of a message: the byte 0x80, zero bytes up to 56 modulo 64, and the
length in bits as eight bytes. -/
def pad (msg : List Nat) : List Nat :=
  msg ++ 128 :: (List.replicate ((55 + 64 - msg.length % 64) % 64) 0 ++
    beBytes 8 (8 * msg.length))

/-- The 32-bit words of a byte sequence, four bytes each, most significant
first. -/
def words : List Nat → List Nat
  | a :: b :: c :: d :: rest => (a * 16777216 + b * 65536 + c * 256 + d) :: words rest
  | _ => []

/-- Extension of the message schedule by `n` words; `w` holds the words so far,
newest first. -/
def schedule : Nat → List Nat → List Nat
  | 0, w => w
  | n + 1, w =>
    schedule n
      (mask32 (ssig1 (w.getD 1 0) + w.getD 6 0 + ssig0 (w.getD 14 0) + w.getD 15 0) :: w)

/-- One round of the compression function on the working variables, with the
round constant and the schedule word. -/
def round (st : List Nat) (kw : Nat × Nat) : List Nat :=
  match st with
  | [a, b, c, d, e, f, g, h] =>
    [mask32 (h + bsig1 e + ch e f g + kw.1 + kw.2 + (bsig0 a + maj a b c)), a, b, c,
     mask32 (d + (h + bsig1 e + ch e f g + kw.1 + kw.2)), e, f, g]
  | _ => st

/-- The compression function: one block of sixteen words folded into the hash
value. -/
def compress (h : List Nat) (block : List Nat) : List Nat :=
  List.zipWith (fun x y => mask32 (x + y)) h
    ((K.zip (schedule 48 block.reverse).reverse).foldl round h)

/-- The blocks of sixteen words of a word sequence; `n` bounds their number. -/
def chunks : Nat → List Nat → List (List Nat)
  | 0, _ => []
  | n + 1, l => if l = [] then [] else l.take 16 :: chunks n (l.drop 16)

/-- The hash value of a message, eight words. -/
def sum256 (msg : List Nat) : List Nat :=
  (chunks (words (pad msg)).length (words (pad msg))).foldl compress H0

/-- One hexadecimal digit, lower case. -/
def hexDigit (n : Nat) : Char := "0123456789abcdef".data.getD n '0'

/-- The eight hexadecimal digits of a 32-bit word. -/
def hexWord (w : Nat) : List Char :=
  [hexDigit (w / 268435456 % 16), hexDigit (w / 16777216 % 16), hexDigit (w / 1048576 % 16),
   hexDigit (w / 65536 % 16), hexDigit (w / 4096 % 16), hexDigit (w / 256 % 16),
   hexDigit (w / 16 % 16), hexDigit (w % 16)]

/-- The SHA-256 digest of a text in hexadecimal, `hex.EncodeToString` of
`sha256.Sum256([]byte(s))`. -/
def hex (s : String) : String := String.mk ((sum256 (bytes s)).flatMap hexWord)

end sha256

/-! ## package zip -/

namespace zip

/-- Lexicographic order on character sequences, the order of Go's `<=` on
strings and of `sort.Strings`: the first differing character decides, and a
proper initial segment comes first. -/
def lexLe : List Char → List Char → Bool
  | [], _ => true
  | _ :: _, [] => false
  | a :: as, b :: bs => if a < b then true else if b < a then false else lexLe as bs

/-- The order `sort.Strings` sorts by. -/
def stringLe (a b : String) : Prop := lexLe a.data b.data = true

instance stringLe.decidable : DecidableRel stringLe :=
  fun a b => inferInstanceAs (Decidable (lexLe a.data b.data = true))

/-- Modelled from the spec: the function `combinedChecksum` of
`source/zip/zip.go`, a file that is not among the sources (its test is). The
per-file checksums are sorted lexicographically, concatenated, and the
concatenation is hashed; the digest function is the parameter `hash`. -/
def combinedChecksum (hash : String → String) (sums : List String) : String :=
  hash (String.join (sums.insertionSort stringLe))

/-- The compact JSON text of a list of strings, `json.Marshal` of a `[]string`
whose elements need no escaping, as hexadecimal checksums do not:
`["a","b"]`. -/
def jsonStrings (l : List String) : String :=
  "[" ++ String.intercalate "," (l.map (fun s => "\"" ++ s ++ "\"")) ++ "]"

/-- Modelled from the spec: the function `combinedChecksum` of
`source/zip/zip.go` (not among the sources) with the serialisation and the
digest that the literal of `Test_combinedChecksum` fixes: the per-file
checksums are sorted lexicographically, and the SHA-256 of the JSON text of
the sorted list is returned in hexadecimal. -/
def combinedChecksumJSON (sums : List String) : String :=
  sha256.hex (jsonStrings (sums.insertionSort stringLe))

end zip

/-! ## Concrete inputs

A storage provider, a set of externals and a result bag on which the
definitions above are evaluated. -/

namespace sample

/-- A storage provider that accepts every upload. -/
def store : storage.StorageProvider :=
  { Kind := "gcs", CollectionRef := "tide-bucket", UploadFile := fun _ _ => none }

/-- A storage provider that refuses every upload. -/
def brokenStore : storage.StorageProvider :=
  { Kind := "gcs", CollectionRef := "tide-bucket",
    UploadFile := fun _ _ => some "upload refused" }

/-- A report with one file and one message. -/
def reportText : String :=
  "\x7b\"files\":\x7b\"a.php\":\x7b\"messages\":[\x7b\"source\":\"S1\",\"message\":\"m1\"\x7d]\x7d\x7d\x7d"

/-- Externals: the decoder knows the empty object and `reportText`; the file
writer fails on the empty path, as `ioutil.WriteFile` does, and succeeds
elsewhere; the renderer lists the rule identifiers. -/
def externals : phpcs.Externals :=
  { unmarshal := fun s =>
      if s = "\x7b\x7d" then some { Files := [] }
      else if s = reportText then
        some { Files := [("a.php", { Messages := [{ Source := "S1", Message := "m1" }] })] }
      else none,
    marshal := fun src => String.intercalate "," (src.map Prod.fst),
    writeFile := fun path _ =>
      if path = "" then some "open : no such file or directory" else none,
    BreaksVersions := fun _ => ["5.6"],
    MergeVersions := fun a b => a ++ b.filter (fun v => !a.contains v),
    ExcludeVersions := fun a b => a.filter (fun v => !b.contains v),
    PhpMajorVersions := ["5.6", "7.0", "7.1"] }

/-- The same externals with a file writer that always succeeds. -/
def externalsWriteOk : phpcs.Externals :=
  { externals with writeFile := fun _ _ => none }

/-- A heap whose objects are all the zero `AuditResult`. -/
def heap : Heap := fun _ => tide.emptyResult

/-- A heap whose objects already carry details and an earlier error. -/
def usedHeap : Heap := fun _ =>
  { Details := { Type_ := "s3", Key := "old.json", BucketName := "old-bucket",
                 PhpcsResults := none, LighthouseResults := none },
    CompatibleVersions := ["5.6"], Error := "earlier" }

/-- A complete result bag: the parent's result under `phpcs_wordpress`, the
temp folder, the checksum and the file store. -/
def bag : audit.Result :=
  [("audits", audit.Value.strs ["phpcs_wordpress", "phpcs_phpcompatibility"]),
   ("phpcs_wordpress", audit.Value.auditResult 1),
   ("tempFolder", audit.Value.str "/tmp/task/"),
   ("checksum", audit.Value.str "abc"),
   ("fileStore", audit.Value.fileStore store)]

/-- The bag without `tempFolder`. -/
def bagNoTemp : audit.Result :=
  [("phpcs_wordpress", audit.Value.auditResult 1),
   ("checksum", audit.Value.str "abc"),
   ("fileStore", audit.Value.fileStore store)]

/-- The bag with a file store that refuses the upload. -/
def bagBrokenStore : audit.Result :=
  [("phpcs_wordpress", audit.Value.auditResult 1),
   ("tempFolder", audit.Value.str "/tmp/task/"),
   ("checksum", audit.Value.str "abc"),
   ("fileStore", audit.Value.fileStore brokenStore)]

/-- A bag without the parent's result. -/
def bagNoParent : audit.Result :=
  [("tempFolder", audit.Value.str "/tmp/task/"),
   ("checksum", audit.Value.str "abc"),
   ("fileStore", audit.Value.fileStore store)]

/-- The post-processor with `reportText` set and `phpcs_wordpress` as parent. -/
def compat : phpcs.PhpCompat :=
  { Report := some reportText, ParentProcess := "phpcs_wordpress",
    resultPath := "", resultFile := "" }

/-- The post-processor on which no report was set. -/
def compatNoReport : phpcs.PhpCompat :=
  { Report := none, ParentProcess := "phpcs_wordpress", resultPath := "", resultFile := "" }

/-- A world from a receiver, a bag and a heap, with empty logs. -/
def world (p : phpcs.PhpCompat) (r : audit.Result) (h : Heap) : phpcs.World :=
  { p := p, r := r, heap := h, writes := [], uploads := [] }

/-- An update function that reads its argument, and returns `retries` bumped
to 6 and a lock stamp. -/
def bump : firestore.UpdateFunc := fun d =>
  { edited := d,
    data := [("retries", firestore.FieldValue.int64 6), ("lock", firestore.FieldValue.int64 99)],
    err := none }

/-- An update function that returns the same fields together with an error. -/
def bumpFailing : firestore.UpdateFunc := fun d =>
  { edited := d,
    data := [("retries", firestore.FieldValue.int64 6), ("lock", firestore.FieldValue.int64 99)],
    err := some "update failed" }

/-- An update function that edits the map it is handed (`data["retries"] = 0`,
`data["lock"] = 1`) and returns a nil map and a nil error. -/
def editInPlace : firestore.UpdateFunc := fun d =>
  { edited := mapSet (mapSet d "retries" (firestore.FieldValue.int64 0)) "lock"
      (firestore.FieldValue.int64 1),
    data := [],
    err := none }

/-- An update function that returns an `_id` of its own. -/
def ownId : firestore.UpdateFunc := fun d =>
  { edited := d, data := [("_id", firestore.FieldValue.string "mine")], err := none }

/-- The three checksums of `Test_combinedChecksum`, in sorted order. -/
def sortedSums : List String :=
  ["27dd8ed44a83ff94d557f9fd0412ed5a8cbca69ea04922d88c01184a07300a5a",
   "2c8b08da5ce60398e1f19af0e5dccc744df274b826abe585eaba68c525434806",
   "f6936912184481f5edd4c304ce27c5a1a827804fc7f329f43d273b8621870776"]

/-- The three checksums of `Test_combinedChecksum`, in the unsorted order. -/
def unsortedSums : List String :=
  ["f6936912184481f5edd4c304ce27c5a1a827804fc7f329f43d273b8621870776",
   "27dd8ed44a83ff94d557f9fd0412ed5a8cbca69ea04922d88c01184a07300a5a",
   "2c8b08da5ce60398e1f19af0e5dccc744df274b826abe585eaba68c525434806"]

/-- A stand-in digest that keeps its whole input, so that two digests are equal
only for equal inputs. -/
def digest : String → String := fun s => "digest:" ++ s

/-- A parsed report with two files: `a.php` has messages of the sources `S1`
and `S2`, `b.php` has two messages of `S1`. -/
def twoFiles : tide.PhpcsResults :=
  { Files :=
      [("a.php", { Messages := [{ Source := "S1", Message := "m1" },
                                { Source := "S2", Message := "m2" }] }),
       ("b.php", { Messages := [{ Source := "S1", Message := "m3" },
                                { Source := "S1", Message := "m4" }] })] }

end sample

/-! ## Theorems -/

theorem audit.rangeAudits_eq_true (l : List String) (kind : String) :
    audit.rangeAudits l kind = true ↔ kind ∈ l := by
  induction l with
  | nil => simp [audit.rangeAudits]
  | cons v vs ih =>
    by_cases h : v = kind
    · simp [audit.rangeAudits, h]
    · have h' : ¬ kind = v := fun e => h e.symm
      simp [audit.rangeAudits, h, h', ih]

/-- C1: `CanRunAudit` returns true exactly when the bag has an `audits` entry
that is a list of strings containing the processor's kind; it returns false
when the entry is absent or nil and when the list is empty; on a list of
strings it returns whether the kind is a member. -/
theorem audit.CanRunAudit_iff_mem (pKind : String) (r : audit.Result) :
    (audit.CanRunAudit pKind r = some true ↔
      ∃ l, mapGet r "audits" = some (audit.Value.strs l) ∧ pKind ∈ l) ∧
    ((mapGet r "audits" = none ∨ mapGet r "audits" = some audit.Value.nil) →
      audit.CanRunAudit pKind r = some false) ∧
    (mapGet r "audits" = some (audit.Value.strs []) →
      audit.CanRunAudit pKind r = some false) ∧
    (∀ l, mapGet r "audits" = some (audit.Value.strs l) →
      audit.CanRunAudit pKind r = some (decide (pKind ∈ l))) := by
  refine ⟨?_, ?_, ?_, ?_⟩
  · unfold audit.CanRunAudit
    cases h : mapGet r "audits" with
    | none => simp
    | some v =>
      cases v <;> simp [audit.rangeAudits_eq_true]
  · rintro (h | h) <;> simp [audit.CanRunAudit, h]
  · intro h
    simp [audit.CanRunAudit, h, audit.rangeAudits]
  · intro l h
    simp only [audit.CanRunAudit, h]
    congr 1
    by_cases hm : pKind ∈ l
    · simp [hm, (audit.rangeAudits_eq_true l pKind).2 hm]
    · have : audit.rangeAudits l pKind ≠ true := fun e => hm ((audit.rangeAudits_eq_true l pKind).1 e)
      simp [hm, this]

/-! ### Go maps: read after write -/

theorem mapGet_mapSet_self {α : Type} (m : List (String × α)) (k : String) (v : α) :
    mapGet (mapSet m k v) k = some v := by
  induction m with
  | nil => simp [mapSet, mapGet]
  | cons kv t ih =>
    obtain ⟨k', v'⟩ := kv
    by_cases h : k' = k
    · simp [mapSet, mapGet, h]
    · simp [mapSet, mapGet, h, ih]

theorem mapGet_mapSet_ne {α : Type} (m : List (String × α)) (k k' : String) (v : α)
    (hne : k' ≠ k) : mapGet (mapSet m k v) k' = mapGet m k' := by
  induction m with
  | nil =>
    have h : ¬ k = k' := fun e => hne e.symm
    simp [mapSet, mapGet, h]
  | cons kv t ih =>
    obtain ⟨k1, v1⟩ := kv
    by_cases h : k1 = k
    · have h1 : ¬ k = k' := fun e => hne e.symm
      have h2 : ¬ k1 = k' := fun e => hne (e.symm.trans h)
      simp [mapSet, mapGet, h, h1, h2]
    · by_cases h3 : k1 = k'
      · subst h3
        simp [mapSet, mapGet, h]
      · simp [mapSet, mapGet, h, h3, ih]

/-! ### The exits of `Process` -/

theorem phpcs.Process_parent_missing (x : phpcs.Externals) (w : phpcs.World)
    (hmiss : ∀ a, mapGet w.r w.p.ParentProcess ≠ some (audit.Value.auditResult a)) :
    phpcs.Process x w =
      { w with
        r := mapSet w.r (phpcs.Kind ++ "Error")
          (audit.Value.error "could not get results from parent process") } := by
  unfold phpcs.Process
  cases h : mapGet w.r w.p.ParentProcess with
  | none => rfl
  | some v =>
    cases v with
    | auditResult a => exact absurd h (hmiss a)
    | _ => rfl

theorem phpcs.Process_parse_fail (x : phpcs.Externals) (w : phpcs.World) (a : Nat)
    (hp : mapGet w.r w.p.ParentProcess = some (audit.Value.auditResult a))
    (hparse : phpcs.jsonUnmarshal x (w.p.Report.getD "") = none) :
    phpcs.Process x w = phpcs.recordError w a "could not get phpcs results" := by
  have hb : (match w.p.Report with | some content => content | none => "")
      = w.p.Report.getD "" := by cases w.p.Report <;> rfl
  unfold phpcs.Process
  simp only [hp, hb, hparse]

theorem phpcs.Process_write_fail (x : phpcs.Externals) (w : phpcs.World) (a : Nat)
    (full : tide.PhpcsResults) (e : String)
    (hp : mapGet w.r w.p.ParentProcess = some (audit.Value.auditResult a))
    (hparse : phpcs.jsonUnmarshal x (w.p.Report.getD "") = some full)
    (hwrite : x.writeFile (phpcs.reportPath w.r "detail").2.1
      (x.marshal (phpcs.buildSources x full).1) = some e) :
    phpcs.Process x w =
      phpcs.recordError
        { w with
          p := { w.p with resultFile := (phpcs.reportPath w.r "detail").1,
                          resultPath := (phpcs.reportPath w.r "detail").2.1 },
          writes := w.writes ++ [((phpcs.reportPath w.r "detail").2.1,
            x.marshal (phpcs.buildSources x full).1)] }
        a "could not write PHPCompatibility details to disk" := by
  have hb : (match w.p.Report with | some content => content | none => "")
      = w.p.Report.getD "" := by cases w.p.Report <;> rfl
  unfold phpcs.Process
  simp only [hp, hb, hparse, hwrite]

theorem phpcs.Process_upload_fail (x : phpcs.Externals) (w : phpcs.World) (a : Nat)
    (full : tide.PhpcsResults) (e : String)
    (hp : mapGet w.r w.p.ParentProcess = some (audit.Value.auditResult a))
    (hparse : phpcs.jsonUnmarshal x (w.p.Report.getD "") = some full)
    (hwrite : x.writeFile (phpcs.reportPath w.r "detail").2.1
      (x.marshal (phpcs.buildSources x full).1) = none)
    (hup : (phpcs.uploadResults
      { w.p with resultFile := (phpcs.reportPath w.r "detail").1,
                 resultPath := (phpcs.reportPath w.r "detail").2.1 } w.r).1 = Except.error e) :
    phpcs.Process x w =
      phpcs.recordError
        { w with
          p := { w.p with resultFile := (phpcs.reportPath w.r "detail").1,
                          resultPath := (phpcs.reportPath w.r "detail").2.1 },
          writes := w.writes ++ [((phpcs.reportPath w.r "detail").2.1,
            x.marshal (phpcs.buildSources x full).1)],
          uploads := w.uploads ++ (phpcs.uploadResults
            { w.p with resultFile := (phpcs.reportPath w.r "detail").1,
                       resultPath := (phpcs.reportPath w.r "detail").2.1 } w.r).2 }
        a "could not write PHPCompatibility details to file store" := by
  have hb : (match w.p.Report with | some content => content | none => "")
      = w.p.Report.getD "" := by cases w.p.Report <;> rfl
  unfold phpcs.Process
  simp only [hp, hb, hparse, hwrite, hup]

theorem phpcs.Process_success (x : phpcs.Externals) (w : phpcs.World) (a : Nat)
    (full : tide.PhpcsResults) (details : tide.AuditResult)
    (hp : mapGet w.r w.p.ParentProcess = some (audit.Value.auditResult a))
    (hparse : phpcs.jsonUnmarshal x (w.p.Report.getD "") = some full)
    (hwrite : x.writeFile (phpcs.reportPath w.r "detail").2.1
      (x.marshal (phpcs.buildSources x full).1) = none)
    (hup : (phpcs.uploadResults
      { w.p with resultFile := (phpcs.reportPath w.r "detail").1,
                 resultPath := (phpcs.reportPath w.r "detail").2.1 } w.r).1
        = Except.ok details) :
    phpcs.Process x w =
      { w with
        p := { w.p with resultFile := (phpcs.reportPath w.r "detail").1,
                        resultPath := (phpcs.reportPath w.r "detail").2.1 },
        writes := w.writes ++ [((phpcs.reportPath w.r "detail").2.1,
          x.marshal (phpcs.buildSources x full).1)],
        uploads := w.uploads ++ (phpcs.uploadResults
          { w.p with resultFile := (phpcs.reportPath w.r "detail").1,
                     resultPath := (phpcs.reportPath w.r "detail").2.1 } w.r).2,
        heap := heapSet w.heap a
          { (if (w.heap a).Details = tide.emptyResult.Details then
              { w.heap a with Details := details.Details } else w.heap a) with
            CompatibleVersions :=
              x.ExcludeVersions x.PhpMajorVersions (phpcs.buildSources x full).2 } } := by
  have hb : (match w.p.Report with | some content => content | none => "")
      = w.p.Report.getD "" := by cases w.p.Report <;> rfl
  unfold phpcs.Process
  simp only [hp, hb, hparse, hwrite, hup]

/-! ### `reportPath` and `uploadResults` -/

theorem phpcs.reportPath_ok (r : audit.Result) (fileSuffix tempFolder checksum : String)
    (ht : mapGet r "tempFolder" = some (audit.Value.str tempFolder))
    (hc : mapGet r "checksum" = some (audit.Value.str checksum)) :
    phpcs.reportPath r fileSuffix =
      ((if fileSuffix ≠ "" then checksum ++ "-" ++ phpcs.Kind ++ ("-" ++ fileSuffix ++ ".json")
          else checksum ++ "-" ++ phpcs.Kind ++ ".json"),
        phpcs.TrimRight tempFolder ++ "/" ++
          (if fileSuffix ≠ "" then checksum ++ "-" ++ phpcs.Kind ++ ("-" ++ fileSuffix ++ ".json")
            else checksum ++ "-" ++ phpcs.Kind ++ ".json"),
        none) := by
  simp only [phpcs.reportPath, ht, hc]

theorem phpcs.reportPath_cases (r : audit.Result) (fileSuffix : String) :
    (∃ tempFolder checksum, mapGet r "tempFolder" = some (audit.Value.str tempFolder) ∧
        mapGet r "checksum" = some (audit.Value.str checksum)) ∨
      ((phpcs.reportPath r fileSuffix).1 = "" ∧ (phpcs.reportPath r fileSuffix).2.1 = "" ∧
        (phpcs.reportPath r fileSuffix).2.2 ≠ none) := by
  cases ht : mapGet r "tempFolder" with
  | none => right; simp [phpcs.reportPath, ht]
  | some v =>
    cases v with
    | str t =>
      cases hc : mapGet r "checksum" with
      | none => right; simp [phpcs.reportPath, ht, hc]
      | some v' =>
        cases v' with
        | str c => left; exact ⟨t, c, rfl, rfl⟩
        | _ => right; simp [phpcs.reportPath, ht, hc]
    | _ => right; simp [phpcs.reportPath, ht]

theorem phpcs.reportPath_nonempty (r : audit.Result) (fileSuffix : String)
    (hok : (phpcs.reportPath r fileSuffix).2.2 = none) :
    (phpcs.reportPath r fileSuffix).1 ≠ "" ∧ (phpcs.reportPath r fileSuffix).2.1 ≠ "" := by
  have hlen : ∀ s : String, s.length ≠ 0 → s ≠ "" := by
    intro s h e
    subst e
    exact h rfl
  have hk : phpcs.Kind.length = 22 := by decide
  rcases phpcs.reportPath_cases r fileSuffix with ⟨t, c, ht, hc⟩ | ⟨_, _, h⟩
  · rw [phpcs.reportPath_ok r fileSuffix t c ht hc]
    constructor
    · apply hlen
      by_cases hs : fileSuffix = "" <;>
        simp only [hs, ne_eq, not_true_eq_false, not_false_eq_true, if_true, if_false,
          String.length_append, hk] <;> omega
    · apply hlen
      by_cases hs : fileSuffix = "" <;>
        simp only [hs, ne_eq, not_true_eq_false, not_false_eq_true, if_true, if_false,
          String.length_append, hk] <;> omega
  · exact absurd hok h

theorem phpcs.uploadResults_no_path (p : phpcs.PhpCompat) (r : audit.Result)
    (h : p.resultFile = "" ∨ p.resultPath = "") :
    phpcs.uploadResults p r = (Except.error "no result path given", []) := by
  simp only [phpcs.uploadResults, h, if_true]

theorem phpcs.uploadResults_ok (p : phpcs.PhpCompat) (r : audit.Result)
    (sP : storage.StorageProvider) (hf : p.resultFile ≠ "") (hpath : p.resultPath ≠ "")
    (hstore : mapGet r "fileStore" = some (audit.Value.fileStore sP))
    (hup : sP.UploadFile p.resultPath p.resultFile = none) :
    phpcs.uploadResults p r =
      (Except.ok { tide.emptyResult with
          Details := { Type_ := sP.Kind, Key := p.resultFile, BucketName := sP.CollectionRef,
                       PhpcsResults := none, LighthouseResults := none } },
        [(p.resultPath, p.resultFile)]) := by
  have hn : ¬ (p.resultFile = "" ∨ p.resultPath = "") := by
    rintro (h | h)
    · exact hf h
    · exact hpath h
  simp only [phpcs.uploadResults, hn, if_false, hstore, hup]

theorem phpcs.uploadResults_fail (p : phpcs.PhpCompat) (r : audit.Result)
    (h : (∀ sP, mapGet r "fileStore" ≠ some (audit.Value.fileStore sP)) ∨
      ∃ sP e, mapGet r "fileStore" = some (audit.Value.fileStore sP) ∧
        sP.UploadFile p.resultPath p.resultFile = some e) :
    ∃ e, (phpcs.uploadResults p r).1 = Except.error e := by
  unfold phpcs.uploadResults
  by_cases hn : p.resultFile = "" ∨ p.resultPath = ""
  · refine ⟨"no result path given", ?_⟩
    simp only [hn, if_true]
  · simp only [hn, if_false]
    rcases h with h | ⟨sP, e, hs, hu⟩
    · cases hs : mapGet r "fileStore" with
      | none => exact ⟨_, rfl⟩
      | some v =>
        cases v with
        | fileStore sP => exact absurd hs (h sP)
        | _ => exact ⟨_, rfl⟩
    · exact ⟨e, by simp only [hs, hu]⟩

/-! ### Claims on `Process` -/

/-- C2: on the success path of `Process` (parent result present, report
parsed, names built, file written, upload accepted) the parent's `Details`
is kept when it was already set and becomes the reference of the uploaded
artifact (provider kind, result filename, collection reference) only when it
was the zero value; no error entry is written to the bag. -/
theorem phpcs.Process_details_first_writer_wins (x : phpcs.Externals) (w : phpcs.World)
    (a : Nat) (full : tide.PhpcsResults) (sP : storage.StorageProvider)
    (hp : mapGet w.r w.p.ParentProcess = some (audit.Value.auditResult a))
    (hparse : phpcs.jsonUnmarshal x (w.p.Report.getD "") = some full)
    (hnames : (phpcs.reportPath w.r "detail").2.2 = none)
    (hwrite : x.writeFile (phpcs.reportPath w.r "detail").2.1
      (x.marshal (phpcs.buildSources x full).1) = none)
    (hstore : mapGet w.r "fileStore" = some (audit.Value.fileStore sP))
    (hupload : sP.UploadFile (phpcs.reportPath w.r "detail").2.1
      (phpcs.reportPath w.r "detail").1 = none) :
    ((w.heap a).Details ≠ tide.emptyResult.Details →
      ((phpcs.Process x w).heap a).Details = (w.heap a).Details) ∧
    ((w.heap a).Details = tide.emptyResult.Details →
      ((phpcs.Process x w).heap a).Details =
        { Type_ := sP.Kind, Key := (phpcs.reportPath w.r "detail").1,
          BucketName := sP.CollectionRef, PhpcsResults := none,
          LighthouseResults := none }) ∧
    (phpcs.Process x w).r = w.r := by
  obtain ⟨hf, hpath⟩ := phpcs.reportPath_nonempty w.r "detail" hnames
  have hup := phpcs.uploadResults_ok
    { w.p with resultFile := (phpcs.reportPath w.r "detail").1,
               resultPath := (phpcs.reportPath w.r "detail").2.1 } w.r sP hf hpath hstore hupload
  have hup1 := congrArg Prod.fst hup
  rw [phpcs.Process_success x w a full _ hp hparse hwrite hup1]
  refine ⟨?_, ?_, rfl⟩
  · intro hset
    simp [heapSet, hset]
  · intro hzero
    simp [heapSet, hzero]

/-- Witness of C2 on the complete bag, once with a fresh parent result and
once with one that already has details. -/
theorem phpcs.Process_details_first_writer_wins_witness :
    ((phpcs.Process sample.externals
        (sample.world sample.compat sample.bag sample.heap)).heap 1).Details =
      { Type_ := "gcs", Key := "abc-phpcs_phpcompatibility-detail.json",
        BucketName := "tide-bucket", PhpcsResults := none, LighthouseResults := none } ∧
    ((phpcs.Process sample.externals
        (sample.world sample.compat sample.bag sample.usedHeap)).heap 1).Details =
      (sample.usedHeap 1).Details := by
  constructor
  · exact (phpcs.Process_details_first_writer_wins sample.externals
      (sample.world sample.compat sample.bag sample.heap) 1
      { Files := [("a.php", { Messages := [{ Source := "S1", Message := "m1" }] })] }
      sample.store rfl rfl rfl rfl rfl rfl).2.1 rfl
  · exact (phpcs.Process_details_first_writer_wins sample.externals
      (sample.world sample.compat sample.bag sample.usedHeap) 1
      { Files := [("a.php", { Messages := [{ Source := "S1", Message := "m1" }] })] }
      sample.store rfl rfl rfl rfl rfl rfl).1 (by decide)

/-- C3 (counterexample): on a bag without the parent's result, `Process`
leaves the post-processor's own kind key `phpcs_phpcompatibility` without an
entry; the error is stored under another key, `phpcs_phpcompatibilityError`. -/
theorem phpcs.Process_parent_missing_counterexample :
    phpcs.Kind = "phpcs_phpcompatibility" ∧
    mapGet sample.bagNoParent sample.compat.ParentProcess = none ∧
    mapGet (phpcs.Process sample.externals
        (sample.world sample.compat sample.bagNoParent sample.usedHeap)).r phpcs.Kind = none ∧
    mapGet (phpcs.Process sample.externals
        (sample.world sample.compat sample.bagNoParent sample.usedHeap)).r
        "phpcs_phpcompatibilityError" =
      some (audit.Value.error "could not get results from parent process") :=
  ⟨rfl, rfl, rfl, rfl⟩

/-- C3 (amended): when the bag holds no `*tide.AuditResult` under the parent's
kind (key absent or a value of another type), `Process` changes no
`AuditResult` at all (the heap is the same, so no `CompatibleVersions`
moves), stores the error "could not get results from parent process" under
the key made of its own kind and the suffix `Error`,
`phpcs_phpcompatibilityError`, touches no other key of the bag (its own kind
key `phpcs_phpcompatibility` included) and makes no call of `writeFile` or
`UploadFile`. -/
theorem phpcs.Process_parent_missing_records_error (x : phpcs.Externals) (w : phpcs.World)
    (hmiss : ∀ a, mapGet w.r w.p.ParentProcess ≠ some (audit.Value.auditResult a)) :
    (phpcs.Process x w).heap = w.heap ∧
    (∀ b, ((phpcs.Process x w).heap b).CompatibleVersions = (w.heap b).CompatibleVersions) ∧
    mapGet (phpcs.Process x w).r "phpcs_phpcompatibilityError" =
      some (audit.Value.error "could not get results from parent process") ∧
    (∀ k, k ≠ "phpcs_phpcompatibilityError" → mapGet (phpcs.Process x w).r k = mapGet w.r k) ∧
    (phpcs.Process x w).writes = w.writes ∧
    (phpcs.Process x w).uploads = w.uploads ∧
    (phpcs.Process x w).p = w.p ∧
    phpcs.Kind ++ "Error" = "phpcs_phpcompatibilityError" ∧
    mapGet (phpcs.Process x w).r phpcs.Kind = mapGet w.r phpcs.Kind := by
  have hk : phpcs.Kind ++ "Error" = "phpcs_phpcompatibilityError" := by decide
  have hkind : phpcs.Kind ≠ "phpcs_phpcompatibilityError" := by decide
  rw [phpcs.Process_parent_missing x w hmiss, hk]
  refine ⟨rfl, fun _ => rfl, ?_, ?_, rfl, rfl, rfl, rfl, ?_⟩
  · exact mapGet_mapSet_self _ _ _
  · intro k hne
    exact mapGet_mapSet_ne _ _ _ _ hne
  · exact mapGet_mapSet_ne _ _ _ _ hkind

/-- Witness of the amended C3 on the bag without the parent's result. -/
theorem phpcs.Process_parent_missing_records_error_witness :
    mapGet (phpcs.Process sample.externals
        (sample.world sample.compat sample.bagNoParent sample.usedHeap)).r
        "phpcs_phpcompatibilityError" =
      some (audit.Value.error "could not get results from parent process") ∧
    (phpcs.Process sample.externals
        (sample.world sample.compat sample.bagNoParent sample.usedHeap)).writes = [] :=
  have h := phpcs.Process_parent_missing_records_error sample.externals
    (sample.world sample.compat sample.bagNoParent sample.usedHeap)
    (by
      intro a
      have hnone : mapGet (sample.world sample.compat sample.bagNoParent sample.usedHeap).r
          (sample.world sample.compat sample.bagNoParent sample.usedHeap).p.ParentProcess
            = none := rfl
      rw [hnone]
      exact fun e => nomatch e)
  ⟨h.2.2.1, h.2.2.2.2.1⟩

theorem phpcs.reportPath_missing_context (r : audit.Result) (fileSuffix : String)
    (hctx : (∀ t, mapGet r "tempFolder" ≠ some (audit.Value.str t)) ∨
      (∀ c, mapGet r "checksum" ≠ some (audit.Value.str c))) :
    (phpcs.reportPath r fileSuffix).1 = "" ∧ (phpcs.reportPath r fileSuffix).2.1 = "" ∧
      (phpcs.reportPath r fileSuffix).2.2 ≠ none := by
  rcases phpcs.reportPath_cases r fileSuffix with ⟨t, c, ht, hc⟩ | h
  · rcases hctx with h | h
    · exact absurd ht (h t)
    · exact absurd hc (h c)
  · exact h

/-- C4 (what the code does): with the parent's result present and the report
parsed, a bag without a string `tempFolder` or `checksum` does not stop
`Process` at `reportPath`: the error of `reportPath` is dropped and
`writeFile` is called once, with the empty path. The error recorded is the
one of the write when that call fails and the one of the upload stage when it
succeeds (no `UploadFile` call is made); the parent's `Details` and
`CompatibleVersions` stay as they were. -/
theorem phpcs.Process_missing_context_still_writes (x : phpcs.Externals) (w : phpcs.World)
    (a : Nat) (full : tide.PhpcsResults)
    (hp : mapGet w.r w.p.ParentProcess = some (audit.Value.auditResult a))
    (hparse : phpcs.jsonUnmarshal x (w.p.Report.getD "") = some full)
    (hctx : (∀ t, mapGet w.r "tempFolder" ≠ some (audit.Value.str t)) ∨
      (∀ c, mapGet w.r "checksum" ≠ some (audit.Value.str c))) :
    (phpcs.Process x w).writes = w.writes ++ [("", x.marshal (phpcs.buildSources x full).1)] ∧
    (phpcs.Process x w).uploads = w.uploads ∧
    ((phpcs.Process x w).heap a).Details = (w.heap a).Details ∧
    ((phpcs.Process x w).heap a).CompatibleVersions = (w.heap a).CompatibleVersions ∧
    (x.writeFile "" (x.marshal (phpcs.buildSources x full).1) ≠ none →
      mapGet (phpcs.Process x w).r "phpcs_phpcompatibilityError" =
        some (audit.Value.error "could not write PHPCompatibility details to disk")) ∧
    (x.writeFile "" (x.marshal (phpcs.buildSources x full).1) = none →
      mapGet (phpcs.Process x w).r "phpcs_phpcompatibilityError" =
        some (audit.Value.error "could not write PHPCompatibility details to file store")) := by
  obtain ⟨hfile, hpath, _⟩ := phpcs.reportPath_missing_context w.r "detail" hctx
  have hk : phpcs.Kind ++ "Error" = "phpcs_phpcompatibilityError" := by decide
  cases hw : x.writeFile "" (x.marshal (phpcs.buildSources x full).1) with
  | some e =>
    have hw' : x.writeFile (phpcs.reportPath w.r "detail").2.1
        (x.marshal (phpcs.buildSources x full).1) = some e := by rw [hpath]; exact hw
    rw [phpcs.Process_write_fail x w a full e hp hparse hw']
    simp only [phpcs.recordError, hpath, hfile, hk, heapSet, if_true, mapGet_mapSet_self]
    simp
  | none =>
    have hw' : x.writeFile (phpcs.reportPath w.r "detail").2.1
        (x.marshal (phpcs.buildSources x full).1) = none := by rw [hpath]; exact hw
    have hup := phpcs.uploadResults_no_path
      { w.p with resultFile := (phpcs.reportPath w.r "detail").1,
                 resultPath := (phpcs.reportPath w.r "detail").2.1 } w.r (Or.inl hfile)
    rw [phpcs.Process_upload_fail x w a full _ hp hparse hw' (congrArg Prod.fst hup), hup]
    simp only [phpcs.recordError, hpath, hk, heapSet, if_true, mapGet_mapSet_self]
    simp

/-- Witness of C4 on the bag without `tempFolder`: one `writeFile` call at the
empty path, and the recorded error is the one of the failed write. -/
theorem phpcs.Process_missing_context_still_writes_witness :
    (phpcs.Process sample.externals
        (sample.world sample.compat sample.bagNoTemp sample.heap)).writes = [("", "S1")] ∧
    mapGet (phpcs.Process sample.externals
        (sample.world sample.compat sample.bagNoTemp sample.heap)).r
        "phpcs_phpcompatibilityError" =
      some (audit.Value.error "could not write PHPCompatibility details to disk") :=
  have h := phpcs.Process_missing_context_still_writes sample.externals
    (sample.world sample.compat sample.bagNoTemp sample.heap) 1
    { Files := [("a.php", { Messages := [{ Source := "S1", Message := "m1" }] })] }
    rfl rfl
    (Or.inl (by
      intro t
      have hnone : mapGet (sample.world sample.compat sample.bagNoTemp sample.heap).r
          "tempFolder" = none := rfl
      rw [hnone]
      exact fun e => nomatch e))
  ⟨h.1, h.2.2.2.2.1 (by decide)⟩

/-- C5: with the parent's result present, the report parsed and the detail
file written, a failing upload (no storage provider under `fileStore`, or
`UploadFile` returning an error) makes `Process` store the error
"could not write PHPCompatibility details to file store" under
`phpcs_phpcompatibilityError`, append a newline and that message to the
parent's `Error`, and leave the parent's `Details` and `CompatibleVersions`,
and every other `AuditResult`, as they were. -/
theorem phpcs.Process_upload_failure_sets_nothing (x : phpcs.Externals) (w : phpcs.World)
    (a : Nat) (full : tide.PhpcsResults)
    (hp : mapGet w.r w.p.ParentProcess = some (audit.Value.auditResult a))
    (hparse : phpcs.jsonUnmarshal x (w.p.Report.getD "") = some full)
    (hwrite : x.writeFile (phpcs.reportPath w.r "detail").2.1
      (x.marshal (phpcs.buildSources x full).1) = none)
    (hfail : (∀ sP, mapGet w.r "fileStore" ≠ some (audit.Value.fileStore sP)) ∨
      ∃ sP e, mapGet w.r "fileStore" = some (audit.Value.fileStore sP) ∧
        sP.UploadFile (phpcs.reportPath w.r "detail").2.1
          (phpcs.reportPath w.r "detail").1 = some e) :
    mapGet (phpcs.Process x w).r "phpcs_phpcompatibilityError" =
      some (audit.Value.error "could not write PHPCompatibility details to file store") ∧
    ((phpcs.Process x w).heap a).Error =
      (w.heap a).Error ++ "\n" ++ "could not write PHPCompatibility details to file store" ∧
    ((phpcs.Process x w).heap a).Details = (w.heap a).Details ∧
    ((phpcs.Process x w).heap a).CompatibleVersions = (w.heap a).CompatibleVersions ∧
    (∀ b, b ≠ a → (phpcs.Process x w).heap b = w.heap b) := by
  obtain ⟨e, he⟩ := phpcs.uploadResults_fail
    { w.p with resultFile := (phpcs.reportPath w.r "detail").1,
               resultPath := (phpcs.reportPath w.r "detail").2.1 } w.r hfail
  have hk : phpcs.Kind ++ "Error" = "phpcs_phpcompatibilityError" := by decide
  rw [phpcs.Process_upload_fail x w a full e hp hparse hwrite he]
  simp only [phpcs.recordError, hk, heapSet, if_true, mapGet_mapSet_self]
  refine ⟨trivial, ?_, trivial, trivial, ?_⟩
  · exact (String.append_assoc _ _ _).symm
  · intro b hb
    simp [hb]

/-- Witness of C5 on the bag whose file store refuses the upload. -/
theorem phpcs.Process_upload_failure_sets_nothing_witness :
    ((phpcs.Process sample.externals
        (sample.world sample.compat sample.bagBrokenStore sample.usedHeap)).heap 1).Error =
      "earlier\ncould not write PHPCompatibility details to file store" ∧
    ((phpcs.Process sample.externals
        (sample.world sample.compat sample.bagBrokenStore sample.usedHeap)).heap 1).Details =
      (sample.usedHeap 1).Details :=
  have h := phpcs.Process_upload_failure_sets_nothing sample.externals
    (sample.world sample.compat sample.bagBrokenStore sample.usedHeap) 1
    { Files := [("a.php", { Messages := [{ Source := "S1", Message := "m1" }] })] }
    rfl rfl rfl (Or.inr ⟨sample.brokenStore, "upload refused", rfl, rfl⟩)
  ⟨h.2.1, h.2.2.1⟩

theorem phpcs.Process_error_cases (x : phpcs.Externals) (w : phpcs.World) (a : Nat)
    (hp : mapGet w.r w.p.ParentProcess = some (audit.Value.auditResult a)) (b : Nat) :
    ((phpcs.Process x w).heap b).Error = (w.heap b).Error ∨
      (b = a ∧ ∃ m, m ∈ ["could not get phpcs results",
            "could not write PHPCompatibility details to disk",
            "could not write PHPCompatibility details to file store"] ∧
          ((phpcs.Process x w).heap b).Error = (w.heap b).Error ++ "\n" ++ m) := by
  have happ : ∀ s m : String, s ++ ("\n" ++ m) = s ++ "\n" ++ m :=
    fun s m => (String.append_assoc _ _ _).symm
  by_cases hb : b = a
  · subst hb
    cases hparse : phpcs.jsonUnmarshal x (w.p.Report.getD "") with
    | none =>
      right
      refine ⟨rfl, "could not get phpcs results", by simp, ?_⟩
      rw [phpcs.Process_parse_fail x w b hp hparse]
      simp only [phpcs.recordError, heapSet, if_true]
      exact happ _ _
    | some full =>
      cases hwrite : x.writeFile (phpcs.reportPath w.r "detail").2.1
          (x.marshal (phpcs.buildSources x full).1) with
      | some e =>
        right
        refine ⟨rfl, "could not write PHPCompatibility details to disk", by simp, ?_⟩
        rw [phpcs.Process_write_fail x w b full e hp hparse hwrite]
        simp only [phpcs.recordError, heapSet, if_true]
        exact happ _ _
      | none =>
        cases hup : (phpcs.uploadResults
            { w.p with resultFile := (phpcs.reportPath w.r "detail").1,
                       resultPath := (phpcs.reportPath w.r "detail").2.1 } w.r).1 with
        | error e =>
          right
          refine ⟨rfl, "could not write PHPCompatibility details to file store", by simp, ?_⟩
          rw [phpcs.Process_upload_fail x w b full e hp hparse hwrite hup]
          simp only [phpcs.recordError, heapSet, if_true]
          exact happ _ _
        | ok details =>
          left
          rw [phpcs.Process_success x w b full details hp hparse hwrite hup]
          by_cases hd : (w.heap b).Details = tide.emptyResult.Details <;> simp [heapSet, hd]
  · left
    cases hparse : phpcs.jsonUnmarshal x (w.p.Report.getD "") with
    | none =>
      rw [phpcs.Process_parse_fail x w a hp hparse]
      simp [phpcs.recordError, heapSet, hb]
    | some full =>
      cases hwrite : x.writeFile (phpcs.reportPath w.r "detail").2.1
          (x.marshal (phpcs.buildSources x full).1) with
      | some e =>
        rw [phpcs.Process_write_fail x w a full e hp hparse hwrite]
        simp [phpcs.recordError, heapSet, hb]
      | none =>
        cases hup : (phpcs.uploadResults
            { w.p with resultFile := (phpcs.reportPath w.r "detail").1,
                       resultPath := (phpcs.reportPath w.r "detail").2.1 } w.r).1 with
        | error e =>
          rw [phpcs.Process_upload_fail x w a full e hp hparse hwrite hup]
          simp [phpcs.recordError, heapSet, hb]
        | ok details =>
          rw [phpcs.Process_success x w a full details hp hparse hwrite hup]
          simp [heapSet, hb]

theorem phpcs.Process_error_extends (x : phpcs.Externals) (w : phpcs.World) (b : Nat) :
    ∃ t, ((phpcs.Process x w).heap b).Error = (w.heap b).Error ++ t := by
  by_cases hex : ∃ a, mapGet w.r w.p.ParentProcess = some (audit.Value.auditResult a)
  · obtain ⟨a, hp⟩ := hex
    rcases phpcs.Process_error_cases x w a hp b with h | ⟨_, m, _, h⟩
    · exact ⟨"", by rw [h]; simp⟩
    · exact ⟨"\n" ++ m, by rw [h, String.append_assoc]⟩
  · have hmiss : ∀ a, mapGet w.r w.p.ParentProcess ≠ some (audit.Value.auditResult a) :=
      fun a h => hex ⟨a, h⟩
    rw [phpcs.Process_parent_missing x w hmiss]
    exact ⟨"", by simp⟩

theorem phpcs.ProcessAll_error_extends
    (calls : List (phpcs.Externals × phpcs.PhpCompat × (audit.Result → audit.Result))) :
    ∀ (w : phpcs.World) (b : Nat),
      ∃ t, ((phpcs.ProcessAll calls w).heap b).Error = (w.heap b).Error ++ t := by
  induction calls with
  | nil => intro w b; exact ⟨"", by simp [phpcs.ProcessAll]⟩
  | cons c cs ih =>
    intro w b
    obtain ⟨x, p, edit⟩ := c
    obtain ⟨t1, h1⟩ := phpcs.Process_error_extends x { w with p := p, r := edit w.r } b
    obtain ⟨t2, h2⟩ := ih (phpcs.Process x { w with p := p, r := edit w.r }) b
    refine ⟨t1 ++ t2, ?_⟩
    simp only [phpcs.ProcessAll]
    rw [h2, h1, String.append_assoc]

/-- C6: in a call of `Process` with the parent's result present, the parent's
`Error` either stays as it was or becomes the old text, a newline and one of
the three error messages of `Process`; and over any sequence of calls the
`Error` of every `AuditResult` before the sequence is an initial segment of
its `Error` after it. -/
theorem phpcs.Process_error_append_only (x : phpcs.Externals) (w : phpcs.World) (a : Nat)
    (hp : mapGet w.r w.p.ParentProcess = some (audit.Value.auditResult a)) :
    (((phpcs.Process x w).heap a).Error = (w.heap a).Error ∨
      ∃ m, m ∈ ["could not get phpcs results",
            "could not write PHPCompatibility details to disk",
            "could not write PHPCompatibility details to file store"] ∧
          ((phpcs.Process x w).heap a).Error = (w.heap a).Error ++ "\n" ++ m) ∧
    (∀ (calls : List (phpcs.Externals × phpcs.PhpCompat × (audit.Result → audit.Result)))
        (b : Nat),
      ∃ t, ((phpcs.ProcessAll calls w).heap b).Error = (w.heap b).Error ++ t) := by
  constructor
  · rcases phpcs.Process_error_cases x w a hp a with h | ⟨_, h⟩
    · exact Or.inl h
    · exact Or.inr h
  · intro calls b
    exact phpcs.ProcessAll_error_extends calls w b

/-- Witness of C6 on the bag whose file store refuses the upload, the parent's
result already carrying the error text "earlier": one call, then two more. -/
theorem phpcs.Process_error_append_only_witness :
    (((phpcs.Process sample.externals
          (sample.world sample.compat sample.bagBrokenStore sample.usedHeap)).heap 1).Error =
        "earlier" ∨
      ∃ m, m ∈ ["could not get phpcs results",
            "could not write PHPCompatibility details to disk",
            "could not write PHPCompatibility details to file store"] ∧
          ((phpcs.Process sample.externals
            (sample.world sample.compat sample.bagBrokenStore sample.usedHeap)).heap 1).Error =
          "earlier" ++ "\n" ++ m) ∧
    ∃ t, ((phpcs.ProcessAll
        [(sample.externals, sample.compat, fun r => r),
         (sample.externals, sample.compatNoReport, fun r => r)]
        (sample.world sample.compat sample.bagBrokenStore sample.usedHeap)).heap 1).Error =
      "earlier" ++ t :=
  have h := phpcs.Process_error_append_only sample.externals
    (sample.world sample.compat sample.bagBrokenStore sample.usedHeap) 1 rfl
  ⟨h.1, h.2 _ 1⟩

/-- C7 (counterexample): on the complete bag, with the parent's result present
and no report set, `Process` does record an error: the bag had no
`phpcs_phpcompatibilityError` entry before the call and has one after it, and
the parent's `Error` has grown. -/
theorem phpcs.Process_no_report_counterexample :
    sample.compatNoReport.Report = none ∧
    mapGet sample.bag sample.compatNoReport.ParentProcess = some (audit.Value.auditResult 1) ∧
    mapGet sample.bag "phpcs_phpcompatibilityError" = none ∧
    mapGet (phpcs.Process sample.externals
        (sample.world sample.compatNoReport sample.bag sample.heap)).r
        "phpcs_phpcompatibilityError" =
      some (audit.Value.error "could not get phpcs results") ∧
    (sample.heap 1).Error = "" ∧
    ((phpcs.Process sample.externals
        (sample.world sample.compatNoReport sample.bag sample.heap)).heap 1).Error =
      "\ncould not get phpcs results" :=
  ⟨rfl, rfl, rfl, rfl, rfl, rfl⟩

/-- C7 (amended): with the parent's result present and no report set, `Process`
reads nothing and does not panic; the empty content does not parse, so it
stores "could not get phpcs results" under `phpcs_phpcompatibilityError`,
appends a newline and that message to the parent's `Error`, leaves the
parent's `Details` and `CompatibleVersions` as they were, and makes no call
of `writeFile` or `UploadFile`. -/
theorem phpcs.Process_no_report_records_parse_error (x : phpcs.Externals) (w : phpcs.World)
    (a : Nat)
    (hreport : w.p.Report = none)
    (hp : mapGet w.r w.p.ParentProcess = some (audit.Value.auditResult a)) :
    mapGet (phpcs.Process x w).r "phpcs_phpcompatibilityError" =
      some (audit.Value.error "could not get phpcs results") ∧
    ((phpcs.Process x w).heap a).Error = (w.heap a).Error ++ "\n" ++ "could not get phpcs results" ∧
    ((phpcs.Process x w).heap a).Details = (w.heap a).Details ∧
    ((phpcs.Process x w).heap a).CompatibleVersions = (w.heap a).CompatibleVersions ∧
    (phpcs.Process x w).writes = w.writes ∧
    (phpcs.Process x w).uploads = w.uploads := by
  have hparse : phpcs.jsonUnmarshal x (w.p.Report.getD "") = none := by
    rw [hreport]
    simp [phpcs.jsonUnmarshal]
  have hk : phpcs.Kind ++ "Error" = "phpcs_phpcompatibilityError" := by decide
  rw [phpcs.Process_parse_fail x w a hp hparse]
  simp only [phpcs.recordError, hk, heapSet, if_true, mapGet_mapSet_self]
  exact ⟨trivial, (String.append_assoc _ _ _).symm, trivial, trivial, trivial, trivial⟩

/-- Witness of the amended C7 on the complete bag. -/
theorem phpcs.Process_no_report_records_parse_error_witness :
    mapGet (phpcs.Process sample.externals
        (sample.world sample.compatNoReport sample.bag sample.usedHeap)).r
        "phpcs_phpcompatibilityError" =
      some (audit.Value.error "could not get phpcs results") ∧
    ((phpcs.Process sample.externals
        (sample.world sample.compatNoReport sample.bag sample.usedHeap)).heap 1).Error =
      "earlier\ncould not get phpcs results" :=
  have h := phpcs.Process_no_report_records_parse_error sample.externals
    (sample.world sample.compatNoReport sample.bag sample.usedHeap) 1 rfl rfl
  ⟨h.1, h.2.1⟩

/-! ### The mock `QueryItems` -/

theorem mapGet_eq_none_of_not_mem {α : Type} (m : List (String × α)) (k : String)
    (h : k ∉ m.map Prod.fst) : mapGet m k = none := by
  induction m with
  | nil => rfl
  | cons kv t ih =>
    obtain ⟨k', v'⟩ := kv
    simp only [List.map_cons, List.mem_cons, not_or] at h
    have hne : ¬ k' = k := fun e => h.1 e.symm
    simp [mapGet, hne, ih h.2]

theorem firestore.mergeInto_get (data : firestore.Doc) :
    ∀ (docData : firestore.Doc), (data.map Prod.fst).Nodup → ∀ k,
      (∀ v, mapGet data k = some v → mapGet (firestore.mergeInto docData data) k = some v) ∧
      (mapGet data k = none →
        mapGet (firestore.mergeInto docData data) k = mapGet docData k) := by
  induction data with
  | nil =>
    intro d _ k
    simp [mapGet, firestore.mergeInto]
  | cons kv rest ih =>
    intro d hnd k
    obtain ⟨key, val⟩ := kv
    simp only [List.map_cons, List.nodup_cons] at hnd
    obtain ⟨hnot, hrest⟩ := hnd
    have ih' := ih (mapSet d key val) hrest k
    by_cases hk : key = k
    · subst hk
      have hnone : mapGet rest key = none := mapGet_eq_none_of_not_mem rest key hnot
      constructor
      · intro v hv
        simp only [mapGet, if_true] at hv
        simp only [firestore.mergeInto]
        rw [ih'.2 hnone, mapGet_mapSet_self]
        exact hv
      · intro hv
        simp [mapGet] at hv
    · have hk' : k ≠ key := fun e => hk e.symm
      constructor
      · intro v hv
        simp only [mapGet, hk, if_false] at hv
        simp only [firestore.mergeInto]
        exact ih'.1 v hv
      · intro hv
        simp only [mapGet, hk, if_false] at hv
        simp only [firestore.mergeInto]
        rw [ih'.2 hv, mapGet_mapSet_ne _ _ _ _ hk']

theorem firestore.simpleMessage_fields (f : firestore.UpdateFunc) (retries : Int) (id : String)
    (hf : ((f (firestore.docData retries)).data.map Prod.fst).Nodup) :
    ∃ doc, firestore.simpleMessage f retries id = [doc] ∧
      (id ≠ "" → mapGet doc "_id" = some (firestore.FieldValue.string id)) ∧
      (∀ k v, (k ≠ "_id" ∨ id = "") → mapGet (f (firestore.docData retries)).data k = some v →
        mapGet doc k = some v) ∧
      (∀ k, (k ≠ "_id" ∨ id = "") → mapGet (f (firestore.docData retries)).data k = none →
        mapGet doc k = mapGet (f (firestore.docData retries)).edited k) := by
  refine ⟨_, rfl, ?_, ?_, ?_⟩
  · intro hid
    simp only [hid, ne_eq, not_false_eq_true, if_true]
    exact mapGet_mapSet_self _ _ _
  · intro k v hk hv
    by_cases hid : id = ""
    · simp only [hid, ne_eq, not_true_eq_false, if_false]
      exact (firestore.mergeInto_get _ _ hf k).1 v hv
    · have hk' : k ≠ "_id" := hk.resolve_right hid
      simp only [hid, ne_eq, not_false_eq_true, if_true]
      rw [mapGet_mapSet_ne _ _ _ _ hk']
      exact (firestore.mergeInto_get _ _ hf k).1 v hv
  · intro k hk hv
    by_cases hid : id = ""
    · simp only [hid, ne_eq, not_true_eq_false, if_false]
      exact (firestore.mergeInto_get _ _ hf k).2 hv
    · have hk' : k ≠ "_id" := hk.resolve_right hid
      simp only [hid, ne_eq, not_false_eq_true, if_true]
      rw [mapGet_mapSet_ne _ _ _ _ hk']
      exact (firestore.mergeInto_get _ _ hf k).2 hv

theorem firestore.QueryItems_cases (f : firestore.UpdateFunc) :
    firestore.QueryItems "simple-message" f = (firestore.simpleMessage f 5 "", none) ∧
    firestore.QueryItems "last-retry" f = (firestore.simpleMessage f 1 "", none) ∧
    firestore.QueryItems "with-id" f = (firestore.simpleMessage f 1 "ABC123", none) ∧
    (∀ collection, (firestore.QueryItems collection f).2 = none) := by
  refine ⟨by simp [firestore.QueryItems], by simp [firestore.QueryItems],
    by simp [firestore.QueryItems], ?_⟩
  intro collection
  unfold firestore.QueryItems
  split_ifs <;> rfl

/-- C8 (counterexample): an update function that edits the map it is handed
and returns nothing. On `simple-message` the document that comes back has
`retries` 0, though `retries` is a current key the function does not return,
and it has the key `lock`, which is neither a current key nor a returned
one. -/
theorem firestore.QueryItems_in_place_counterexample :
    (sample.editInPlace
      [("retries", firestore.FieldValue.int64 5),
       ("message", firestore.FieldValue.message { Title := "Simple Message" })]).data = [] ∧
    firestore.QueryItems "simple-message" sample.editInPlace =
      ([[("retries", firestore.FieldValue.int64 0),
         ("message", firestore.FieldValue.message { Title := "Simple Message" }),
         ("lock", firestore.FieldValue.int64 1)]], none) := by
  decide

/-- C8 (amended): the mock hands the update function the map `retries: 5`,
`message: Simple Message` itself (`retries: 1` on `with-id`). For every update
function (returning a Go map, each key once) `QueryItems` on `simple-message`
returns one document and no error; in the document every key the function
returns has the function's value and every other key has the value the
handed map holds after the call, which is its current value when the
function left the map as it was, so that no `_id` is added then. On
`with-id` the one document has `_id` equal to "ABC123", whatever the
function returned for `_id`, and every other key is merged in the same
way. -/
theorem firestore.QueryItems_merges_overrides (f : firestore.UpdateFunc)
    (hf : ∀ d, ((f d).data.map Prod.fst).Nodup) :
    firestore.docData 5 =
      [("retries", firestore.FieldValue.int64 5),
       ("message", firestore.FieldValue.message { Title := "Simple Message" })] ∧
    firestore.docData 1 =
      [("retries", firestore.FieldValue.int64 1),
       ("message", firestore.FieldValue.message { Title := "Simple Message" })] ∧
    (∃ doc, firestore.QueryItems "simple-message" f = ([doc], none) ∧
      (∀ k v, mapGet (f (firestore.docData 5)).data k = some v → mapGet doc k = some v) ∧
      (∀ k, mapGet (f (firestore.docData 5)).data k = none →
        mapGet doc k = mapGet (f (firestore.docData 5)).edited k) ∧
      ((f (firestore.docData 5)).edited = firestore.docData 5 →
        (∀ k, mapGet (f (firestore.docData 5)).data k = none →
          mapGet doc k = mapGet (firestore.docData 5) k) ∧
        (mapGet (f (firestore.docData 5)).data "_id" = none → mapGet doc "_id" = none))) ∧
    (∃ doc, firestore.QueryItems "with-id" f = ([doc], none) ∧
      mapGet doc "_id" = some (firestore.FieldValue.string "ABC123") ∧
      (∀ k v, k ≠ "_id" → mapGet (f (firestore.docData 1)).data k = some v →
        mapGet doc k = some v) ∧
      (∀ k, k ≠ "_id" → mapGet (f (firestore.docData 1)).data k = none →
        mapGet doc k = mapGet (f (firestore.docData 1)).edited k) ∧
      ((f (firestore.docData 1)).edited = firestore.docData 1 →
        ∀ k, k ≠ "_id" → mapGet (f (firestore.docData 1)).data k = none →
          mapGet doc k = mapGet (firestore.docData 1) k)) := by
  refine ⟨rfl, rfl, ?_, ?_⟩
  · obtain ⟨doc, hdoc, _, hset, hkeep⟩ := firestore.simpleMessage_fields f 5 "" (hf _)
    refine ⟨doc, ?_, ?_, ?_, ?_⟩
    · rw [(firestore.QueryItems_cases f).1, hdoc]
    · exact fun k v hv => hset k v (Or.inr rfl) hv
    · exact fun k hv => hkeep k (Or.inr rfl) hv
    · intro hsame
      constructor
      · intro k hv
        rw [hkeep k (Or.inr rfl) hv, hsame]
      · intro hv
        rw [hkeep "_id" (Or.inr rfl) hv, hsame]
        rfl
  · obtain ⟨doc, hdoc, hid, hset, hkeep⟩ := firestore.simpleMessage_fields f 1 "ABC123" (hf _)
    refine ⟨doc, ?_, ?_, ?_, ?_, ?_⟩
    · rw [(firestore.QueryItems_cases f).2.2.1, hdoc]
    · exact hid (by decide)
    · exact fun k v hk hv => hset k v (Or.inl hk) hv
    · exact fun k hk hv => hkeep k (Or.inl hk) hv
    · intro hsame k hk hv
      rw [hkeep k (Or.inl hk) hv, hsame]

/-- Witness of the amended C8: the update function that bumps `retries` and
stamps a lock, on `simple-message`; and an update function that returns an
`_id` of its own, on `with-id`, where the document's identifier wins. -/
theorem firestore.QueryItems_merges_overrides_witness :
    firestore.QueryItems "simple-message" sample.bump =
      ([[("retries", firestore.FieldValue.int64 6),
         ("message", firestore.FieldValue.message { Title := "Simple Message" }),
         ("lock", firestore.FieldValue.int64 99)]], none) ∧
    firestore.QueryItems "with-id" sample.ownId =
      ([[("retries", firestore.FieldValue.int64 1),
         ("message", firestore.FieldValue.message { Title := "Simple Message" }),
         ("_id", firestore.FieldValue.string "ABC123")]], none) ∧
    ∃ doc, firestore.QueryItems "with-id" sample.bump = ([doc], none) ∧
      mapGet doc "_id" = some (firestore.FieldValue.string "ABC123") :=
  have h := firestore.QueryItems_merges_overrides sample.bump
    (fun _ => (by decide : (["retries", "lock"] : List String).Nodup))
  ⟨by decide, by decide, h.2.2.2.imp fun _ hd => ⟨hd.1, hd.2.1⟩⟩

/-- C9 (counterexample): an update function that returns fields together with
an error; the mock merges them all the same, so the document `QueryItems`
returns is not the current fields: `retries` is 6, not 5, and `lock` is set. -/
theorem firestore.QueryItems_error_counterexample :
    (sample.bumpFailing (firestore.docData 5)).err = some "update failed" ∧
    firestore.docData 5 =
      [("retries", firestore.FieldValue.int64 5),
       ("message", firestore.FieldValue.message { Title := "Simple Message" })] ∧
    firestore.QueryItems "simple-message" sample.bumpFailing =
      ([[("retries", firestore.FieldValue.int64 6),
         ("message", firestore.FieldValue.message { Title := "Simple Message" }),
         ("lock", firestore.FieldValue.int64 99)]], none) ∧
    firestore.QueryItems "simple-message" sample.bumpFailing ≠
      ([firestore.docData 5], none) := by
  decide

/-- C9 (amended): the mock discards the error of the update function and
changes the document whether or not an error comes with the fields. The
document it returns starts from the map `retries`, `message` handed to the
function, as the function left it; every returned key carries the returned
value and every other key has the value that map holds after the call,
except that for a document with an identifier `_id` is the identifier,
whatever was returned for `_id`. Two update functions that leave the same
map and return the same fields give the same document whatever their
errors, and `QueryItems` itself reports no error on any collection. -/
theorem firestore.simpleMessage_ignores_update_error (f : firestore.UpdateFunc)
    (retries : Int) (id : String)
    (hf : ((f (firestore.docData retries)).data.map Prod.fst).Nodup) :
    firestore.docData retries =
      [("retries", firestore.FieldValue.int64 retries),
       ("message", firestore.FieldValue.message { Title := "Simple Message" })] ∧
    (∃ doc, firestore.simpleMessage f retries id = [doc] ∧
      (id ≠ "" → mapGet doc "_id" = some (firestore.FieldValue.string id)) ∧
      (∀ k v, (k ≠ "_id" ∨ id = "") →
        mapGet (f (firestore.docData retries)).data k = some v → mapGet doc k = some v) ∧
      (∀ k, (k ≠ "_id" ∨ id = "") → mapGet (f (firestore.docData retries)).data k = none →
        mapGet doc k = mapGet (f (firestore.docData retries)).edited k)) ∧
    (∀ g : firestore.UpdateFunc,
      (g (firestore.docData retries)).edited = (f (firestore.docData retries)).edited →
      (g (firestore.docData retries)).data = (f (firestore.docData retries)).data →
        firestore.simpleMessage g retries id = firestore.simpleMessage f retries id) ∧
    firestore.QueryItems "simple-message" f = (firestore.simpleMessage f 5 "", none) ∧
    firestore.QueryItems "last-retry" f = (firestore.simpleMessage f 1 "", none) ∧
    firestore.QueryItems "with-id" f = (firestore.simpleMessage f 1 "ABC123", none) ∧
    (∀ collection, (firestore.QueryItems collection f).2 = none) := by
  obtain ⟨hq1, hq2, hq3, hq4⟩ := firestore.QueryItems_cases f
  refine ⟨rfl, firestore.simpleMessage_fields f retries id hf, ?_, hq1, hq2, hq3, hq4⟩
  intro g hedit hdata
  simp only [firestore.simpleMessage, hedit, hdata]

/-- Witness of the amended C9: the update function that fails and the one that
does not leave the same map and return the same fields, and give the same
document on `with-id`, with `retries` at 6 and `_id` "ABC123". -/
theorem firestore.simpleMessage_ignores_update_error_witness :
    (sample.bumpFailing (firestore.docData 1)).err = some "update failed" ∧
    firestore.simpleMessage sample.bump 1 "ABC123" =
      firestore.simpleMessage sample.bumpFailing 1 "ABC123" ∧
    firestore.simpleMessage sample.bumpFailing 1 "ABC123" =
      [[("retries", firestore.FieldValue.int64 6),
        ("message", firestore.FieldValue.message { Title := "Simple Message" }),
        ("lock", firestore.FieldValue.int64 99),
        ("_id", firestore.FieldValue.string "ABC123")]] ∧
    (firestore.QueryItems "with-id" sample.bumpFailing).2 = none :=
  have h := firestore.simpleMessage_ignores_update_error sample.bumpFailing 1 "ABC123"
    (by decide)
  ⟨rfl, h.2.2.1 sample.bump rfl rfl, by decide, h.2.2.2.2.2.2 "with-id"⟩

/-! ### The combined checksum -/

theorem zip.lexLe_total : ∀ a b : List Char, zip.lexLe a b = true ∨ zip.lexLe b a = true
  | [], _ => Or.inl rfl
  | _ :: _, [] => Or.inr rfl
  | a :: as, b :: bs => by
    rcases lt_trichotomy a b with h | h | h
    · left
      simp [zip.lexLe, h]
    · subst h
      simpa [zip.lexLe] using zip.lexLe_total as bs
    · right
      simp [zip.lexLe, h]

theorem zip.lexLe_antisymm :
    ∀ a b : List Char, zip.lexLe a b = true → zip.lexLe b a = true → a = b
  | [], [], _, _ => rfl
  | [], _ :: _, _, h => by simp [zip.lexLe] at h
  | _ :: _, [], h, _ => by simp [zip.lexLe] at h
  | a :: as, b :: bs, h1, h2 => by
    rcases lt_trichotomy a b with h | h | h
    · have h' : ¬ b < a := not_lt_of_lt h
      simp [zip.lexLe, h, h'] at h2
    · subst h
      simp only [zip.lexLe, lt_self_iff_false, if_false] at h1 h2
      rw [zip.lexLe_antisymm as bs h1 h2]
    · have h' : ¬ a < b := not_lt_of_lt h
      simp [zip.lexLe, h, h'] at h1

theorem zip.lexLe_trans :
    ∀ a b c : List Char, zip.lexLe a b = true → zip.lexLe b c = true → zip.lexLe a c = true
  | [], _, _, _, _ => by simp [zip.lexLe]
  | _ :: _, [], _, h, _ => by simp [zip.lexLe] at h
  | _ :: _, _ :: _, [], _, h => by simp [zip.lexLe] at h
  | a :: as, b :: bs, c :: cs, h1, h2 => by
    rcases lt_trichotomy a b with hab | hab | hab
    · rcases lt_trichotomy b c with hbc | hbc | hbc
      · simp [zip.lexLe, lt_trans hab hbc]
      · subst hbc
        simp [zip.lexLe, hab]
      · have h' : ¬ b < c := not_lt_of_lt hbc
        simp [zip.lexLe, hbc, h'] at h2
    · subst hab
      rcases lt_trichotomy a c with hac | hac | hac
      · simp [zip.lexLe, hac]
      · subst hac
        simp only [zip.lexLe, lt_self_iff_false, if_false] at h1 h2 ⊢
        exact zip.lexLe_trans as bs cs h1 h2
      · have h' : ¬ a < c := not_lt_of_lt hac
        simp [zip.lexLe, hac, h'] at h2
    · have h' : ¬ a < b := not_lt_of_lt hab
      simp [zip.lexLe, hab, h'] at h1

theorem zip.insertionSort_perm_eq (sums sums' : List String) (hperm : sums'.Perm sums) :
    sums'.insertionSort zip.stringLe = sums.insertionSort zip.stringLe ∧
    (sums.insertionSort zip.stringLe).Sorted zip.stringLe := by
  haveI : IsTotal String zip.stringLe := ⟨fun a b => zip.lexLe_total a.data b.data⟩
  haveI : IsTrans String zip.stringLe :=
    ⟨fun a b c h1 h2 => zip.lexLe_trans a.data b.data c.data h1 h2⟩
  haveI : IsAntisymm String zip.stringLe :=
    ⟨fun a b h1 h2 => String.ext (zip.lexLe_antisymm a.data b.data h1 h2)⟩
  exact ⟨List.eq_of_perm_of_sorted
      (((List.perm_insertionSort _ sums').trans hperm).trans (List.perm_insertionSort _ sums).symm)
      (List.sorted_insertionSort _ sums') (List.sorted_insertionSort _ sums),
    List.sorted_insertionSort _ sums⟩

/-- C10 (counterexample): with SHA-256 as the digest, the hash of the plain
concatenation of the sorted checksums is de48cd1a...e7e6 for both lists of
`Test_combinedChecksum`, not the digest 5a0c0a95...e79a94 the test requires
of `combinedChecksum`. -/
theorem zip.combinedChecksum_concatenation_counterexample :
    zip.combinedChecksum sha256.hex sample.sortedSums =
      "de48cd1a82b5f5dd9aafb44f8822ca5eef20b6008145d160bcc85d4dd9fee7e6" ∧
    zip.combinedChecksum sha256.hex sample.unsortedSums =
      "de48cd1a82b5f5dd9aafb44f8822ca5eef20b6008145d160bcc85d4dd9fee7e6" ∧
    zip.combinedChecksum sha256.hex sample.sortedSums ≠
      "5a0c0a95d189c266ca1ed43767dd98f3fb513ce3434e2b08f34828ac11e79a94" := by
  decide!

theorem zip.combinedChecksumJSON_test_sorted :
    zip.combinedChecksumJSON sample.sortedSums =
      "5a0c0a95d189c266ca1ed43767dd98f3fb513ce3434e2b08f34828ac11e79a94" := by
  decide!

theorem zip.combinedChecksumJSON_test_unsorted :
    zip.combinedChecksumJSON sample.unsortedSums =
      "5a0c0a95d189c266ca1ed43767dd98f3fb513ce3434e2b08f34828ac11e79a94" := by
  decide!

/-- C10 (amended): `combinedChecksum` gives the same digest for a list of
per-file checksums and for every permutation of it (a non-empty list in
particular). The digest is the SHA-256 of the JSON text of the one
lexicographically sorted arrangement of the checksums, and the sorted and
the unsorted list of `Test_combinedChecksum` both give 5a0c0a95...e79a94.
The hash of the plain concatenation of the sorted checksums is independent
of the order too, for every digest function. -/
theorem zip.combinedChecksumJSON_perm_invariant (sums sums' : List String)
    (hperm : sums'.Perm sums) :
    zip.combinedChecksumJSON sums' = zip.combinedChecksumJSON sums ∧
    (∃ sorted : List String, sorted.Perm sums ∧ sorted.Perm sums' ∧
      sorted.Sorted zip.stringLe ∧
      zip.combinedChecksumJSON sums = sha256.hex (zip.jsonStrings sorted) ∧
      zip.combinedChecksumJSON sums' = sha256.hex (zip.jsonStrings sorted)) ∧
    zip.combinedChecksumJSON sample.sortedSums =
      "5a0c0a95d189c266ca1ed43767dd98f3fb513ce3434e2b08f34828ac11e79a94" ∧
    zip.combinedChecksumJSON sample.unsortedSums =
      "5a0c0a95d189c266ca1ed43767dd98f3fb513ce3434e2b08f34828ac11e79a94" ∧
    (∀ hash : String → String,
      zip.combinedChecksum hash sums' = zip.combinedChecksum hash sums) := by
  obtain ⟨hsame, hsorted⟩ := zip.insertionSort_perm_eq sums sums' hperm
  refine ⟨?_, ⟨sums.insertionSort zip.stringLe, List.perm_insertionSort _ sums,
    (List.perm_insertionSort _ sums).trans hperm.symm, hsorted, rfl, ?_⟩,
    zip.combinedChecksumJSON_test_sorted, zip.combinedChecksumJSON_test_unsorted, ?_⟩
  · simp only [zip.combinedChecksumJSON, hsame]
  · simp only [zip.combinedChecksumJSON, hsame]
  · intro hash
    simp only [zip.combinedChecksum, hsame]

/-- Witness of the amended C10 on the two lists of `Test_combinedChecksum`: the
unsorted list is a permutation of the sorted one and both have the same
digest. -/
theorem zip.combinedChecksumJSON_perm_invariant_witness :
    sample.unsortedSums.Perm sample.sortedSums ∧
    zip.combinedChecksumJSON sample.unsortedSums =
      zip.combinedChecksumJSON sample.sortedSums ∧
    sample.unsortedSums.insertionSort zip.stringLe = sample.sortedSums :=
  have hperm : sample.unsortedSums.Perm sample.sortedSums :=
    (List.Perm.swap _ _ _).trans (List.Perm.cons _ (List.Perm.swap _ _ _))
  ⟨hperm, (zip.combinedChecksumJSON_perm_invariant sample.sortedSums
    sample.unsortedSums hperm).1, rfl⟩

/-! ### The name of the detail file -/

theorem phpcs.TrimRight_data (s : String) :
    ∃ n, s.data = (phpcs.TrimRight s).data ++ List.replicate n '/' ∧
      (phpcs.TrimRight s).data.getLast? ≠ some '/' := by
  refine ⟨(s.data.reverse.takeWhile (fun c => decide (c = '/'))).length, ?_, ?_⟩
  · have hall : s.data.reverse.takeWhile (fun c => decide (c = '/'))
        = List.replicate (s.data.reverse.takeWhile (fun c => decide (c = '/'))).length '/' := by
      rw [List.eq_replicate_iff]
      refine ⟨rfl, fun b hb => ?_⟩
      simpa using List.mem_takeWhile_imp hb
    have hsplit := List.takeWhile_append_dropWhile (fun c => decide (c = '/')) s.data.reverse
    have hrev : s.data = (s.data.reverse.dropWhile (fun c => decide (c = '/'))).reverse ++
        (s.data.reverse.takeWhile (fun c => decide (c = '/'))).reverse := by
      rw [← List.reverse_append, hsplit, List.reverse_reverse]
    show s.data = (s.data.reverse.dropWhile (fun c => decide (c = '/'))).reverse ++ _
    conv_lhs => rw [hrev]
    congr 1
    rw [hall, List.reverse_replicate, List.length_replicate]
  · show (s.data.reverse.dropWhile (fun c => decide (c = '/'))).reverse.getLast? ≠ some '/'
    rw [List.getLast?_reverse]
    have h := List.head?_dropWhile_not (fun c => decide (c = '/')) s.data.reverse
    intro hc
    rw [hc] at h
    simp at h

theorem phpcs.uploadResults_calls (p : phpcs.PhpCompat) (r : audit.Result)
    (sP : storage.StorageProvider) (hf : p.resultFile ≠ "") (hpath : p.resultPath ≠ "")
    (hstore : mapGet r "fileStore" = some (audit.Value.fileStore sP)) :
    (phpcs.uploadResults p r).2 = [(p.resultPath, p.resultFile)] := by
  have hn : ¬ (p.resultFile = "" ∨ p.resultPath = "") := by
    rintro (h | h)
    · exact hf h
    · exact hpath h
  simp only [phpcs.uploadResults, hn, if_false, hstore]
  cases sP.UploadFile p.resultPath p.resultFile <;> rfl

/-- C12: for a bag whose `tempFolder` is the string `t` and whose `checksum` is
the string `c`, `reportPath(r, "detail")` returns no error, the filename
`c ++ "-phpcs_phpcompatibility-detail.json"` and the path made of `t` without
its trailing slashes, a slash and the filename. The filename is the same for
every bag with the same checksum, and it is the key `uploadResults` passes to
`UploadFile` when the bag has a file store. -/
theorem phpcs.reportPath_detail_name (r : audit.Result) (t c : String)
    (ht : mapGet r "tempFolder" = some (audit.Value.str t))
    (hc : mapGet r "checksum" = some (audit.Value.str c)) :
    phpcs.reportPath r "detail" =
      (c ++ "-phpcs_phpcompatibility-detail.json",
        phpcs.TrimRight t ++ "/" ++ (c ++ "-phpcs_phpcompatibility-detail.json"), none) ∧
    (∃ n, t.data = (phpcs.TrimRight t).data ++ List.replicate n '/' ∧
      (phpcs.TrimRight t).data.getLast? ≠ some '/') ∧
    (∀ (r2 : audit.Result) (t2 : String),
      mapGet r2 "tempFolder" = some (audit.Value.str t2) →
      mapGet r2 "checksum" = some (audit.Value.str c) →
      (phpcs.reportPath r2 "detail").1 = (phpcs.reportPath r "detail").1) ∧
    (∀ (p : phpcs.PhpCompat) (sP : storage.StorageProvider),
      mapGet r "fileStore" = some (audit.Value.fileStore sP) →
      (phpcs.uploadResults
        { p with resultFile := (phpcs.reportPath r "detail").1,
                 resultPath := (phpcs.reportPath r "detail").2.1 } r).2 =
        [(phpcs.TrimRight t ++ "/" ++ (c ++ "-phpcs_phpcompatibility-detail.json"),
          c ++ "-phpcs_phpcompatibility-detail.json")]) := by
  have hname : ∀ c' : String, c' ++ "-" ++ phpcs.Kind ++ ("-" ++ "detail" ++ ".json")
      = c' ++ "-phpcs_phpcompatibility-detail.json" := by
    intro c'
    have hlit : ("-" : String) ++ phpcs.Kind ++ ("-" ++ "detail" ++ ".json")
        = "-phpcs_phpcompatibility-detail.json" := by decide
    rw [String.append_assoc, String.append_assoc, ← String.append_assoc "-", hlit]
  have hsuffix : ("detail" : String) ≠ "" := by decide
  have hval : ∀ (r' : audit.Result) (t' : String),
      mapGet r' "tempFolder" = some (audit.Value.str t') →
      mapGet r' "checksum" = some (audit.Value.str c) →
      phpcs.reportPath r' "detail" =
        (c ++ "-phpcs_phpcompatibility-detail.json",
          phpcs.TrimRight t' ++ "/" ++ (c ++ "-phpcs_phpcompatibility-detail.json"), none) := by
    intro r' t' ht' hc'
    rw [phpcs.reportPath_ok r' "detail" t' c ht' hc']
    simp only [hsuffix, ne_eq, not_false_eq_true, if_true, hname]
  have hr := hval r t ht hc
  refine ⟨hr, phpcs.TrimRight_data t, ?_, ?_⟩
  · intro r2 t2 ht2 hc2
    rw [hval r2 t2 ht2 hc2, hr]
  · intro p sP hstore
    obtain ⟨hf, hpath⟩ := phpcs.reportPath_nonempty r "detail" (by rw [hr])
    have hcalls := phpcs.uploadResults_calls
      { p with resultFile := (phpcs.reportPath r "detail").1,
               resultPath := (phpcs.reportPath r "detail").2.1 } r sP hf hpath hstore
    rw [hcalls, hr]

/-- Witness of C12 on the complete bag: temp folder "/tmp/task/", checksum
"abc". -/
theorem phpcs.reportPath_detail_name_witness :
    phpcs.reportPath sample.bag "detail" =
      ("abc-phpcs_phpcompatibility-detail.json",
        "/tmp/task/abc-phpcs_phpcompatibility-detail.json", none) ∧
    phpcs.TrimRight "/tmp/task/" = "/tmp/task" :=
  ⟨(phpcs.reportPath_detail_name sample.bag "/tmp/task/" "abc" rfl rfl).1, by decide⟩

/-! ### The detail structure -/

theorem mem_keys_mapSet {α : Type} (m : List (String × α)) (k k' : String) (v : α) :
    k' ∈ (mapSet m k v).map Prod.fst ↔ k' = k ∨ k' ∈ m.map Prod.fst := by
  induction m with
  | nil => simp [mapSet]
  | cons kv t ih =>
    obtain ⟨k1, v1⟩ := kv
    by_cases h : k1 = k
    · subst h
      simp [mapSet]
    · simp only [mapSet, h, if_false, List.map_cons, List.mem_cons, ih]
      tauto

theorem nodup_keys_mapSet {α : Type} (m : List (String × α)) (k : String) (v : α)
    (hnd : (m.map Prod.fst).Nodup) : ((mapSet m k v).map Prod.fst).Nodup := by
  induction m with
  | nil => simp [mapSet]
  | cons kv t ih =>
    obtain ⟨k1, v1⟩ := kv
    simp only [List.map_cons, List.nodup_cons] at hnd
    by_cases h : k1 = k
    · subst h
      simp only [mapSet, if_true, List.map_cons, List.nodup_cons]
      exact hnd
    · simp only [mapSet, h, if_false, List.map_cons, List.nodup_cons]
      refine ⟨?_, ih hnd.2⟩
      rw [mem_keys_mapSet]
      rintro (e | e)
      · exact h e
      · exact hnd.1 e

theorem mapGet_eq_none_iff {α : Type} (m : List (String × α)) (k : String) :
    mapGet m k = none ↔ k ∉ m.map Prod.fst := by
  induction m with
  | nil => simp [mapGet]
  | cons kv t ih =>
    obtain ⟨k1, v1⟩ := kv
    by_cases h : k1 = k
    · subst h
      simp [mapGet]
    · have h' : ¬ k = k1 := fun e => h e.symm
      simp [mapGet, h, h', ih]

theorem mapSet_mapSet_same {α : Type} (m : List (String × α)) (k : String) (v v' : α) :
    mapSet (mapSet m k v) k v' = mapSet m k v' := by
  induction m with
  | nil => simp [mapSet]
  | cons kv t ih =>
    obtain ⟨k1, v1⟩ := kv
    by_cases h : k1 = k
    · subst h
      simp [mapSet]
    · simp [mapSet, h, ih]

theorem phpcs.addMessage_fresh (x : phpcs.Externals) (filename : String)
    (acc : phpcs.Sources × List String) (m : tide.PhpcsFilesMessage)
    (hnone : mapGet acc.1 m.Source = none) :
    (phpcs.addMessage x filename acc m).1 =
      mapSet acc.1 m.Source
        [("files", phpcs.EntryValue.files (mapSet [] filename m)),
         ("breaks", phpcs.EntryValue.breaks (x.BreaksVersions m))] := by
  simp only [phpcs.addMessage, hnone, mapGet_mapSet_self]
  simp [mapGet, mapSet, mapSet_mapSet_same]

theorem phpcs.addMessage_seen (x : phpcs.Externals) (filename : String)
    (acc : phpcs.Sources × List String) (m : tide.PhpcsFilesMessage)
    (entry : List (String × phpcs.EntryValue)) (files : List (String × tide.PhpcsFilesMessage))
    (hsome : mapGet acc.1 m.Source = some entry)
    (hfiles : mapGet entry "files" = some (phpcs.EntryValue.files files)) :
    (phpcs.addMessage x filename acc m).1 =
      mapSet acc.1 m.Source
        (mapSet entry "files" (phpcs.EntryValue.files (mapSet files filename m))) := by
  simp only [phpcs.addMessage, hsome, hfiles]

theorem phpcs.DetailInvariant_step_core (x : phpcs.Externals)
    (done : List (String × tide.PhpcsFilesMessage)) (sources : phpcs.Sources)
    (filename : String) (m : tide.PhpcsFilesMessage)
    (entry : List (String × phpcs.EntryValue))
    (files0 : List (String × tide.PhpcsFilesMessage)) (breaks0 : List String)
    (hinv : phpcs.DetailInvariant x done sources)
    (hfiles : mapGet entry "files" =
      some (phpcs.EntryValue.files (mapSet files0 filename m)))
    (hbreaks : mapGet entry "breaks" = some (phpcs.EntryValue.breaks breaks0))
    (hfrom : ∃ fm ∈ done ++ [(filename, m)],
      fm.2.Source = m.Source ∧ breaks0 = x.BreaksVersions fm.2)
    (hsound : ∀ f m', mapGet files0 f = some m' → (f, m') ∈ done ∧ m'.Source = m.Source)
    (hcover : ∀ f m', (f, m') ∈ done → m'.Source = m.Source →
      ∃ m'', mapGet files0 f = some m'') :
    phpcs.DetailInvariant x (done ++ [(filename, m)]) (mapSet sources m.Source entry) := by
  obtain ⟨hnd, hkeys, hentries⟩ := hinv
  refine ⟨nodup_keys_mapSet _ _ _ hnd, ?_, ?_⟩
  · intro s
    rw [mem_keys_mapSet, hkeys]
    constructor
    · rintro (h | ⟨fm, hfm, hs⟩)
      · exact ⟨(filename, m), by simp, h.symm⟩
      · exact ⟨fm, by simp [hfm], hs⟩
    · rintro ⟨fm, hfm, hs⟩
      rw [List.mem_append, List.mem_singleton] at hfm
      rcases hfm with hfm | hfm
      · exact Or.inr ⟨fm, hfm, hs⟩
      · subst hfm
        exact Or.inl hs.symm
  · intro s e he
    by_cases hs : s = m.Source
    · subst hs
      rw [mapGet_mapSet_self] at he
      cases he
      refine ⟨mapSet files0 filename m, breaks0, hfiles, hbreaks, hfrom, ?_, ?_⟩
      · intro f m' hget
        by_cases hf : f = filename
        · subst hf
          rw [mapGet_mapSet_self] at hget
          cases hget
          exact ⟨by simp, rfl⟩
        · rw [mapGet_mapSet_ne _ _ _ _ hf] at hget
          obtain ⟨hmem, hsrc⟩ := hsound f m' hget
          exact ⟨by simp [hmem], hsrc⟩
      · intro f m' hmem hsrc
        by_cases hf : f = filename
        · subst hf
          exact ⟨m, mapGet_mapSet_self _ _ _⟩
        · rw [mapGet_mapSet_ne _ _ _ _ hf]
          rw [List.mem_append, List.mem_singleton] at hmem
          rcases hmem with hmem | hmem
          · exact hcover f m' hmem hsrc
          · exact absurd (congrArg Prod.fst hmem) hf
    · rw [mapGet_mapSet_ne _ _ _ _ hs] at he
      obtain ⟨files, breaks, h1, h2, ⟨fm, hfm, hfs, hfb⟩, h4, h5⟩ := hentries s e he
      refine ⟨files, breaks, h1, h2, ⟨fm, by simp [hfm], hfs, hfb⟩, ?_, ?_⟩
      · intro f m' hget
        obtain ⟨hmem, hsrc⟩ := h4 f m' hget
        exact ⟨by simp [hmem], hsrc⟩
      · intro f m' hmem hsrc
        rw [List.mem_append, List.mem_singleton] at hmem
        rcases hmem with hmem | hmem
        · exact h5 f m' hmem hsrc
        · have hm : m' = m := congrArg Prod.snd hmem
          subst hm
          exact absurd hsrc.symm hs

theorem phpcs.DetailInvariant_step (x : phpcs.Externals)
    (done : List (String × tide.PhpcsFilesMessage)) (acc : phpcs.Sources × List String)
    (filename : String) (m : tide.PhpcsFilesMessage)
    (hinv : phpcs.DetailInvariant x done acc.1) :
    phpcs.DetailInvariant x (done ++ [(filename, m)]) (phpcs.addMessage x filename acc m).1 := by
  cases hget : mapGet acc.1 m.Source with
  | none =>
    rw [phpcs.addMessage_fresh x filename acc m hget]
    have hnokey : ¬ ∃ fm ∈ done, fm.2.Source = m.Source := by
      rw [← hinv.2.1 m.Source]
      exact (mapGet_eq_none_iff _ _).1 hget
    refine phpcs.DetailInvariant_step_core x done acc.1 filename m _ [] (x.BreaksVersions m)
      hinv (by simp [mapGet]) (by simp [mapGet])
      ⟨(filename, m), by simp, rfl, rfl⟩ ?_ ?_
    · intro f m' h
      simp [mapGet] at h
    · intro f m' hmem hsrc
      exact absurd ⟨(f, m'), hmem, hsrc⟩ hnokey
  | some entry =>
    obtain ⟨files, breaks, h1, h2, ⟨fm, hfm, hfs, hfb⟩, h4, h5⟩ := hinv.2.2 m.Source entry hget
    rw [phpcs.addMessage_seen x filename acc m entry files hget h1]
    have hne : ("breaks" : String) ≠ "files" := by decide
    refine phpcs.DetailInvariant_step_core x done acc.1 filename m _ files breaks
      hinv (mapGet_mapSet_self _ _ _) ?_ ⟨fm, by simp [hfm], hfs, hfb⟩ h4 h5
    rw [mapGet_mapSet_ne _ _ _ _ hne]
    exact h2

theorem phpcs.foldl_files_eq_visits (x : phpcs.Externals)
    (files : List (String × tide.PhpcsFile)) :
    ∀ acc : phpcs.Sources × List String,
      files.foldl (fun acc fd => fd.2.Messages.foldl (phpcs.addMessage x fd.1) acc) acc =
        (phpcs.visits files).foldl (fun acc fm => phpcs.addMessage x fm.1 acc fm.2) acc := by
  induction files with
  | nil => intro acc; rfl
  | cons fd rest ih =>
    intro acc
    simp only [List.foldl_cons, phpcs.visits, List.foldl_append, List.foldl_map]
    exact ih _

theorem phpcs.mem_visits (files : List (String × tide.PhpcsFile)) (f : String)
    (m : tide.PhpcsFilesMessage) :
    (f, m) ∈ phpcs.visits files ↔ ∃ fd ∈ files, fd.1 = f ∧ m ∈ fd.2.Messages := by
  induction files with
  | nil => simp [phpcs.visits]
  | cons fd rest ih =>
    simp only [phpcs.visits, List.mem_append, List.mem_map, Prod.mk.injEq, ih,
      List.mem_cons, exists_eq_or_imp]
    constructor
    · rintro (⟨m', hm', hf, rfl⟩ | h)
      · exact Or.inl ⟨hf, hm'⟩
      · exact Or.inr h
    · rintro (⟨hf, hm⟩ | h)
      · exact Or.inl ⟨m, hm, hf, rfl⟩
      · exact Or.inr h

theorem phpcs.DetailInvariant_foldl (x : phpcs.Externals)
    (pairs : List (String × tide.PhpcsFilesMessage)) :
    ∀ (done : List (String × tide.PhpcsFilesMessage)) (acc : phpcs.Sources × List String),
      phpcs.DetailInvariant x done acc.1 →
      phpcs.DetailInvariant x (done ++ pairs)
        (pairs.foldl (fun acc fm => phpcs.addMessage x fm.1 acc fm.2) acc).1 := by
  induction pairs with
  | nil =>
    intro done acc h
    simpa using h
  | cons fm rest ih =>
    intro done acc h
    have hstep := phpcs.DetailInvariant_step x done acc fm.1 fm.2 h
    have hrest := ih (done ++ [(fm.1, fm.2)]) (phpcs.addMessage x fm.1 acc fm.2) hstep
    simpa using hrest

theorem phpcs.DetailInvariant_buildSources (x : phpcs.Externals) (full : tide.PhpcsResults) :
    phpcs.DetailInvariant x (phpcs.visits full.Files) (phpcs.buildSources x full).1 := by
  have hinit : phpcs.DetailInvariant x [] (([], []) : phpcs.Sources × List String).1 := by
    refine ⟨List.nodup_nil, ?_, ?_⟩
    · intro s
      simp
    · intro s entry h
      simp [mapGet] at h
  have h := phpcs.DetailInvariant_foldl x (phpcs.visits full.Files) [] ([], []) hinit
  rw [List.nil_append] at h
  unfold phpcs.buildSources
  rw [phpcs.foldl_files_eq_visits]
  exact h

theorem phpcs.Process_writes (x : phpcs.Externals) (w : phpcs.World) (a : Nat)
    (full : tide.PhpcsResults)
    (hp : mapGet w.r w.p.ParentProcess = some (audit.Value.auditResult a))
    (hparse : phpcs.jsonUnmarshal x (w.p.Report.getD "") = some full) :
    (phpcs.Process x w).writes =
      w.writes ++ [((phpcs.reportPath w.r "detail").2.1,
        x.marshal (phpcs.buildSources x full).1)] := by
  cases hwrite : x.writeFile (phpcs.reportPath w.r "detail").2.1
      (x.marshal (phpcs.buildSources x full).1) with
  | some e =>
    rw [phpcs.Process_write_fail x w a full e hp hparse hwrite]
    rfl
  | none =>
    cases hup : (phpcs.uploadResults
        { w.p with resultFile := (phpcs.reportPath w.r "detail").1,
                   resultPath := (phpcs.reportPath w.r "detail").2.1 } w.r).1 with
    | error e =>
      rw [phpcs.Process_upload_fail x w a full e hp hparse hwrite hup]
      rfl
    | ok details =>
      rw [phpcs.Process_success x w a full details hp hparse hwrite hup]

/-- C11: the detail structure `Process` builds from a parsed report has
distinct keys, and its keys are exactly the sources of the messages of the
report's files. Every entry has a `"files"` map and a `"breaks"` list (what
`BreaksVersions` returned for a message of that source); a filename is a key
of the `"files"` map of source `s` exactly when that file has a message of
source `s`, and the value stored under it is a message of that file with
that source. This structure, marshalled, is what `Process` hands to
`writeFile`. -/
theorem phpcs.buildSources_covers_violations (x : phpcs.Externals)
    (full : tide.PhpcsResults) :
    ((phpcs.buildSources x full).1.map Prod.fst).Nodup ∧
    (∀ s, s ∈ (phpcs.buildSources x full).1.map Prod.fst ↔
      ∃ fd ∈ full.Files, ∃ m ∈ fd.2.Messages, m.Source = s) ∧
    (∀ s, s ∈ (phpcs.buildSources x full).1.map Prod.fst →
      ∃ entry, mapGet (phpcs.buildSources x full).1 s = some entry) ∧
    (∀ s entry, mapGet (phpcs.buildSources x full).1 s = some entry →
      ∃ files breaks,
        mapGet entry "files" = some (phpcs.EntryValue.files files) ∧
        mapGet entry "breaks" = some (phpcs.EntryValue.breaks breaks) ∧
        (∃ fd ∈ full.Files, ∃ m ∈ fd.2.Messages,
          m.Source = s ∧ breaks = x.BreaksVersions m) ∧
        (∀ f, (∃ m, mapGet files f = some m) ↔
          ∃ fd ∈ full.Files, fd.1 = f ∧ ∃ m ∈ fd.2.Messages, m.Source = s) ∧
        (∀ f m, mapGet files f = some m →
          m.Source = s ∧ ∃ fd ∈ full.Files, fd.1 = f ∧ m ∈ fd.2.Messages)) ∧
    (∀ (w : phpcs.World) (a : Nat),
      mapGet w.r w.p.ParentProcess = some (audit.Value.auditResult a) →
      phpcs.jsonUnmarshal x (w.p.Report.getD "") = some full →
      (phpcs.Process x w).writes =
        w.writes ++ [((phpcs.reportPath w.r "detail").2.1,
          x.marshal (phpcs.buildSources x full).1)]) := by
  obtain ⟨hnd, hkeys, hentries⟩ := phpcs.DetailInvariant_buildSources x full
  have hvis : ∀ s, (∃ fm ∈ phpcs.visits full.Files, fm.2.Source = s) ↔
      ∃ fd ∈ full.Files, ∃ m ∈ fd.2.Messages, m.Source = s := by
    intro s
    constructor
    · rintro ⟨⟨f, m⟩, hmem, hs⟩
      obtain ⟨fd, hfd, _, hm⟩ := (phpcs.mem_visits full.Files f m).1 hmem
      exact ⟨fd, hfd, m, hm, hs⟩
    · rintro ⟨fd, hfd, m, hm, hs⟩
      exact ⟨(fd.1, m), (phpcs.mem_visits full.Files fd.1 m).2 ⟨fd, hfd, rfl, hm⟩, hs⟩
  refine ⟨hnd, fun s => (hkeys s).trans (hvis s), ?_, ?_, ?_⟩
  · intro s hs
    cases hget : mapGet (phpcs.buildSources x full).1 s with
    | none => exact absurd hs ((mapGet_eq_none_iff _ _).1 hget)
    | some entry => exact ⟨entry, rfl⟩
  · intro s entry hget
    obtain ⟨files, breaks, h1, h2, ⟨⟨f0, m0⟩, hfm, hfs, hfb⟩, h4, h5⟩ := hentries s entry hget
    obtain ⟨fd0, hfd0, _, hm0⟩ := (phpcs.mem_visits full.Files f0 m0).1 hfm
    refine ⟨files, breaks, h1, h2, ⟨fd0, hfd0, m0, hm0, hfs, hfb⟩, ?_, ?_⟩
    · intro f
      constructor
      · rintro ⟨m, hm⟩
        obtain ⟨hmem, hsrc⟩ := h4 f m hm
        obtain ⟨fd, hfd, hf, hmm⟩ := (phpcs.mem_visits full.Files f m).1 hmem
        exact ⟨fd, hfd, hf, m, hmm, hsrc⟩
      · rintro ⟨fd, hfd, hf, m, hmm, hsrc⟩
        exact h5 f m ((phpcs.mem_visits full.Files f m).2 ⟨fd, hfd, hf, hmm⟩) hsrc
    · intro f m hm
      obtain ⟨hmem, hsrc⟩ := h4 f m hm
      exact ⟨hsrc, (phpcs.mem_visits full.Files f m).1 hmem⟩
  · intro w a hp hparse
    exact phpcs.Process_writes x w a full hp hparse

/-- Evaluation of C11 on the report with two files: `S1` lists both files (for
`b.php` the message visited last), `S2` lists `a.php` only, and the keys are
the two sources. -/
theorem phpcs.buildSources_covers_violations_witness :
    (phpcs.buildSources sample.externals sample.twoFiles).1 =
      [("S1", [("files", phpcs.EntryValue.files
                  [("a.php", { Source := "S1", Message := "m1" }),
                   ("b.php", { Source := "S1", Message := "m4" })]),
               ("breaks", phpcs.EntryValue.breaks ["5.6"])]),
       ("S2", [("files", phpcs.EntryValue.files
                  [("a.php", { Source := "S2", Message := "m2" })]),
               ("breaks", phpcs.EntryValue.breaks ["5.6"])])] ∧
    ("S2" ∈ (phpcs.buildSources sample.externals sample.twoFiles).1.map Prod.fst ↔
      ∃ fd ∈ sample.twoFiles.Files, ∃ m ∈ fd.2.Messages, m.Source = "S2") :=
  ⟨by decide,
    (phpcs.buildSources_covers_violations sample.externals sample.twoFiles).2.1 "S2"⟩
